import Mathlib

/-!
Verification of the micro-freelance-marketplace core: the task/bid/milestone
state machine and the real-time chat coordination layer.

The definitions below shallowly embed the backend route handlers
(`routes/bids.ts`, `routes/milestones.ts`, `routes/tasks.ts`) and the
socket handlers (`socket/index.ts`).  The relational store is a record of
lists; Prisma `findUnique` / `findFirst` become `List.find?`, `findMany`
becomes `List.filter`, `update` / `updateMany` become `List.map` guarded by
the `where` predicate, and `create` appends a row.  Fresh primary keys are
passed in as parameters (the database generates UUIDs).  A post-transaction
side effect that can throw (notification insert, socket push) is modelled
by a Boolean `notifyOk` parameter; when it is false the handler takes the
route's catch path and answers with an internal error, exactly as the
TypeScript `try/catch` does.
-/

namespace Mk

/-- `UserRole` enum of the Prisma schema. -/
inductive UserRole where
  | freelancer
  | client
  | admin
deriving DecidableEq, Repr

/-- `TaskStatus` enum of the Prisma schema (`open` is a Lean keyword, hence `open_`). -/
inductive TaskStatus where
  | open_
  | assigned
  | in_progress
  | completed
  | cancelled
deriving DecidableEq, Repr

/-- `BidStatus` enum of the Prisma schema. -/
inductive BidStatus where
  | pending
  | accepted
  | rejected
  | withdrawn
deriving DecidableEq, Repr

/-- `MilestoneStatus` enum of the Prisma schema. -/
inductive MilestoneStatus where
  | pending
  | in_progress
  | completed
  | paid
  | cancelled
deriving DecidableEq, Repr

/-- Rendering of a milestone status, as interpolated into route error messages. -/
def MilestoneStatus.text : MilestoneStatus → String
  | .pending => "pending"
  | .in_progress => "in_progress"
  | .completed => "completed"
  | .paid => "paid"
  | .cancelled => "cancelled"

/-- `User` row (the fields the embedded handlers read). -/
structure User where
  id : String
  email : String
  firstName : String
  lastName : String
  role : UserRole
deriving DecidableEq, Repr

/-- `Task` row (the fields the embedded handlers read). -/
structure Task where
  id : String
  clientId : String
  title : String
  status : TaskStatus
deriving DecidableEq, Repr

/-- `Bid` row. -/
structure Bid where
  id : String
  taskId : String
  freelancerId : String
  amount : Nat
  proposal : String
  timeline : String
  status : BidStatus
deriving DecidableEq, Repr

/-- `Milestone` row. -/
structure Milestone where
  id : String
  taskId : String
  title : String
  description : String
  amount : Nat
  dueDate : Nat
  status : MilestoneStatus
deriving DecidableEq, Repr

/-- `Message` row.  `createdAt` is an abstract timestamp used by the
`orderBy createdAt` queries of the socket layer. -/
structure Message where
  id : String
  taskId : String
  senderId : String
  content : String
  createdAt : Nat
deriving DecidableEq, Repr

/-- `Notification` row (the recipient and the text; timestamps elided). -/
structure Notification where
  userId : String
  message : String
deriving DecidableEq, Repr

/-- The relational store. -/
structure DB where
  users : List User
  tasks : List Task
  bids : List Bid
  milestones : List Milestone
  messages : List Message
  notifications : List Notification
deriving DecidableEq, Repr

/-- The JWT payload that `req.user` carries (`types/index.ts`). -/
structure JwtPayload where
  id : String
  email : String
  role : UserRole
deriving DecidableEq, Repr

/-- Error taxonomy of the spec, as realised by the HTTP status codes of the
routes: 401 `Unauthenticated`, 403 `Forbidden`, 404 `NotFound`,
400 `InvalidState`, 409 `Conflict`, 500 `Internal` (a thrown exception
caught by the route's catch block). -/
inductive ErrKind where
  | Unauthenticated
  | Forbidden
  | NotFound
  | InvalidState
  | Conflict
  | Internal
deriving DecidableEq, Repr

/-- A route response: success (2xx `{success: true}`) or failure with an
error kind and the human-readable message the handler sends. -/
inductive Resp where
  | success (message : String)
  | failure (kind : ErrKind) (message : String)
deriving DecidableEq, Repr

/-- `prisma.task.findUnique({where: {id}})`. -/
def findTask (db : DB) (taskId : String) : Option Task :=
  db.tasks.find? (fun t => t.id == taskId)

/-- `prisma.bid.findUnique({where: {id}})`. -/
def findBid (db : DB) (bidId : String) : Option Bid :=
  db.bids.find? (fun b => b.id == bidId)

/-- `prisma.milestone.findUnique({where: {id}})`. -/
def findMilestone (db : DB) (milestoneId : String) : Option Milestone :=
  db.milestones.find? (fun m => m.id == milestoneId)

/-- `prisma.user.findUnique({where: {id}})` (the `include` of a user relation). -/
def findUser (db : DB) (userId : String) : Option User :=
  db.users.find? (fun u => u.id == userId)

/-- The `bids: {where: {status: 'accepted'}}` include used by the milestone
routes and the socket handlers. -/
def acceptedBids (db : DB) (taskId : String) : List Bid :=
  db.bids.filter (fun b => b.taskId == taskId && b.status == BidStatus.accepted)

/-- POST `/api/tasks` (`routes/tasks.ts`): role check, then
`prisma.task.create` with `status: 'open'`. -/
def createTask (db : DB) (caller : Option JwtPayload) (title : String)
    (newTaskId : String) : DB × Resp :=
  match caller with
  | none => (db, .failure .Forbidden "Only clients can create tasks")
  | some user =>
    if user.role ≠ UserRole.client then
      (db, .failure .Forbidden "Only clients can create tasks")
    else
      let t : Task := ⟨newTaskId, user.id, title, TaskStatus.open_⟩
      ({ db with tasks := db.tasks ++ [t] }, .success "Task created successfully")

/-- POST `/api/bids` (`backend/routes/bids.ts`): role, task existence,
task open, not own task, no duplicate bid; then `prisma.bid.create`
(status defaults to `pending` per the schema) and a best-effort
notification to the task's client. -/
def submitBid (db : DB) (caller : Option JwtPayload) (taskId : String)
    (amount : Nat) (proposal timeline : String) (newBidId : String)
    (notifyOk : Bool) : DB × Resp :=
  match caller with
  | none => (db, .failure .Forbidden "Only freelancers can submit bids.")
  | some user =>
    if user.role ≠ UserRole.freelancer then
      (db, .failure .Forbidden "Only freelancers can submit bids.")
    else
      match findTask db taskId with
      | none => (db, .failure .NotFound "Task not found.")
      | some task =>
        if task.status ≠ TaskStatus.open_ then
          (db, .failure .InvalidState "This task is no longer open for bidding.")
        else if task.clientId == user.id then
          (db, .failure .InvalidState "You cannot bid on your own task.")
        else
          match db.bids.find? (fun b => b.taskId == taskId && b.freelancerId == user.id) with
          | some _ => (db, .failure .Conflict "You have already submitted a bid for this task.")
          | none =>
            let newBid : Bid := ⟨newBidId, taskId, user.id, amount, proposal, timeline, BidStatus.pending⟩
            let db1 := { db with bids := db.bids ++ [newBid] }
            if notifyOk then
              let n : Notification :=
                ⟨task.clientId,
                 "You have a new $" ++ toString amount ++ " bid on your project \"" ++ task.title ++ "\""⟩
              ({ db1 with notifications := db1.notifications ++ [n] },
               .success "Bid submitted successfully")
            else
              (db1, .failure .Internal "Failed to submit bid")

/-- The `$transaction` body of PATCH `/api/bids/:bidId/accept`:
1. `bid.update({where: {id: bidId}}, {status: accepted})`;
2. `bid.updateMany({where: {taskId, NOT: {id: bidId}}}, {status: rejected})`;
3. `task.update({where: {id: taskId}}, {status: assigned})`. -/
def acceptBidTx (db : DB) (bidId taskId : String) : DB :=
  let bids1 := db.bids.map (fun b =>
    if b.id == bidId then { b with status := BidStatus.accepted } else b)
  let bids2 := bids1.map (fun b =>
    if b.taskId == taskId && b.id != bidId then { b with status := BidStatus.rejected } else b)
  let tasks1 := db.tasks.map (fun t =>
    if t.id == taskId then { t with status := TaskStatus.assigned } else t)
  { db with bids := bids2, tasks := tasks1 }

/-- PATCH `/api/bids/:bidId/accept` (`backend/routes/bids.ts`). -/
def acceptBid (db : DB) (caller : Option String) (bidId : String)
    (notifyOk : Bool) : DB × Resp :=
  match caller with
  | none => (db, .failure .Unauthenticated "User not authenticated.")
  | some clientId =>
    match findBid db bidId with
    | none => (db, .failure .NotFound "Bid not found.")
    | some bid =>
      match findTask db bid.taskId, findUser db bid.freelancerId with
      | some task, some freelancer =>
        if task.clientId != clientId then
          (db, .failure .Forbidden "You are not authorized to accept bids for this task.")
        else if task.status ≠ TaskStatus.open_ then
          (db, .failure .InvalidState "This task is not open for bidding.")
        else
          let db1 := acceptBidTx db bidId bid.taskId
          if notifyOk then
            let n1 : Notification :=
              ⟨bid.freelancerId,
               "Congratulations! Your bid for \"" ++ task.title ++ "\" has been accepted."⟩
            let n2 : Notification :=
              ⟨clientId,
               "You have hired " ++ freelancer.firstName ++ " for your project \"" ++ task.title ++ "\"."⟩
            ({ db1 with notifications := db1.notifications ++ [n1, n2] },
             .success "Bid accepted and freelancer hired successfully.")
          else
            (db1, .failure .Internal "Failed to accept bid.")
      | _, _ => (db, .failure .Internal "Failed to accept bid.")

/-- POST `/api/milestones` (`backend/routes/milestones.ts`): client role,
task owned by caller; `prisma.milestone.create` with `status: pending`;
best-effort notification to the accepted freelancer if one exists. -/
def createMilestone (db : DB) (caller : Option JwtPayload) (taskId title description : String)
    (amount dueDate : Nat) (newMilestoneId : String) (notifyOk : Bool) : DB × Resp :=
  match caller with
  | none => (db, .failure .Forbidden "Only clients can create milestones.")
  | some user =>
    if user.role ≠ UserRole.client then
      (db, .failure .Forbidden "Only clients can create milestones.")
    else
      match findTask db taskId with
      | none => (db, .failure .Forbidden "Unauthorized to create milestones for this task.")
      | some task =>
        if task.clientId != user.id then
          (db, .failure .Forbidden "Unauthorized to create milestones for this task.")
        else
          let m : Milestone :=
            ⟨newMilestoneId, taskId, title, description, amount, dueDate, MilestoneStatus.pending⟩
          let db1 := { db with milestones := db.milestones ++ [m] }
          match acceptedBids db taskId with
          | [] => (db1, .success "Milestone created successfully")
          | ab :: _ =>
            if notifyOk then
              let n : Notification :=
                ⟨ab.freelancerId,
                 "A new milestone \"" ++ title ++ "\" was added to your project \"" ++ task.title ++ "\"."⟩
              ({ db1 with notifications := db1.notifications ++ [n] },
               .success "Milestone created successfully")
            else
              (db1, .failure .Internal "Failed to create milestone.")

/-- PATCH `/api/milestones/:milestoneId/complete`
(`backend/routes/milestones.ts`): the caller must be the freelancer of the
task's accepted bid; the milestone must be `pending`; then
`milestone.update({status: completed})` and a best-effort notification to
the task's client.  The notification is not inside a transaction: when it
fails the milestone update stands and the route answers 500. -/
def requestCompletion (db : DB) (caller : Option JwtPayload) (milestoneId : String)
    (notifyOk : Bool) : DB × Resp :=
  match findMilestone db milestoneId with
  | none => (db, .failure .NotFound "Milestone not found.")
  | some m =>
    match findTask db m.taskId with
    | none => (db, .failure .Internal "Failed to update milestone.")
    | some task =>
      match acceptedBids db m.taskId with
      | [] => (db, .failure .Forbidden "You are not authorized to modify this milestone.")
      | ab :: _ =>
        match caller with
        | none => (db, .failure .Forbidden "You are not authorized to modify this milestone.")
        | some user =>
          if ab.freelancerId != user.id then
            (db, .failure .Forbidden "You are not authorized to modify this milestone.")
          else if m.status ≠ MilestoneStatus.pending then
            (db, .failure .InvalidState ("Milestone is already " ++ m.status.text ++ "."))
          else
            let db1 := { db with milestones := db.milestones.map (fun x =>
              if x.id == milestoneId then { x with status := MilestoneStatus.completed } else x) }
            if notifyOk then
              let n : Notification :=
                ⟨task.clientId,
                 user.email ++ " has marked milestone \"" ++ m.title ++
                   "\" as complete. Please review and release payment."⟩
              ({ db1 with notifications := db1.notifications ++ [n] },
               .success "Milestone marked as complete.")
            else
              (db1, .failure .Internal "Failed to update milestone.")

/-- The `$transaction` body of PATCH `/api/milestones/:milestoneId/release-payment`:
1. `milestone.update({status: paid})`;
2. `milestone.count({where: {taskId, status: {not: paid}}})`;
3. if the count is 0, `task.update({status: completed})`; otherwise, if the
pre-read task status was `assigned`, `task.update({status: in_progress})`. -/
def releasePaymentTx (db : DB) (m : Milestone) (taskStatus : TaskStatus) : DB :=
  let ms1 := db.milestones.map (fun x =>
    if x.id == m.id then { x with status := MilestoneStatus.paid } else x)
  let remaining :=
    (ms1.filter (fun x => x.taskId == m.taskId && x.status != MilestoneStatus.paid)).length
  let tasks1 :=
    if remaining == 0 then
      db.tasks.map (fun t =>
        if t.id == m.taskId then { t with status := TaskStatus.completed } else t)
    else if taskStatus == TaskStatus.assigned then
      db.tasks.map (fun t =>
        if t.id == m.taskId then { t with status := TaskStatus.in_progress } else t)
    else
      db.tasks
  { db with milestones := ms1, tasks := tasks1 }

/-- PATCH `/api/milestones/:milestoneId/release-payment`
(`backend/routes/milestones.ts`).  After the transaction, the handler reads
`milestone.task.bids[0].freelancerId` (the accepted-bid include of the
pre-transaction read); when no accepted bid exists or the notification
fails, the catch block answers 500 while the committed transaction stands. -/
def releasePayment (db : DB) (caller : Option String) (milestoneId : String)
    (notifyOk : Bool) : DB × Resp :=
  match findMilestone db milestoneId with
  | none => (db, .failure .NotFound "Milestone not found.")
  | some m =>
    match findTask db m.taskId with
    | none => (db, .failure .Internal "Failed to release payment.")
    | some task =>
      if some task.clientId ≠ caller then
        (db, .failure .Forbidden "You are not authorized to release payment for this milestone.")
      else if m.status ≠ MilestoneStatus.completed then
        (db, .failure .InvalidState "This milestone must be marked as complete before releasing payment.")
      else
        let db1 := releasePaymentTx db m task.status
        match acceptedBids db m.taskId with
        | [] => (db1, .failure .Internal "Failed to release payment.")
        | ab :: _ =>
          if notifyOk then
            let n : Notification :=
              ⟨ab.freelancerId,
               "Payment for milestone \"" ++ m.title ++ "\" has been released by the client."⟩
            ({ db1 with notifications := db1.notifications ++ [n] },
             .success "Payment released successfully.")
          else
            (db1, .failure .Internal "Failed to release payment.")

/-- A live socket connection that passed the JWT middleware: the socket id
and the authenticated user id (`socket.data.user.id`). -/
structure Conn where
  id : String
  userId : String
deriving DecidableEq, Repr

/-- Socket.IO room membership: a list of (room name, socket id) pairs. -/
abbrev ChatState := List (String × String)

/-- The socket ids currently in a room. -/
def roomMembers (chat : ChatState) (room : String) : List String :=
  (chat.filter (fun p => p.1 == room)).map (fun p => p.2)

/-- `socket.join(room)`. -/
def joinRoom (chat : ChatState) (room connId : String) : ChatState :=
  chat ++ [(room, connId)]

/-- The minimal public sender identity included with chat messages
(`sender: {select: {id, firstName, lastName}}`). -/
structure SenderPub where
  id : String
  firstName : String
  lastName : String
deriving DecidableEq, Repr

/-- The sender include resolved against the store. -/
def senderOf (db : DB) (userId : String) : Option SenderPub :=
  (findUser db userId).map (fun u => ⟨u.id, u.firstName, u.lastName⟩)

/-- A message joined with its sender's public identity
(`MessageWithSender` of `types/index.ts`). -/
structure MessageWithSender where
  msg : Message
  sender : Option SenderPub
deriving DecidableEq, Repr

/-- Server→client socket events emitted by the handlers. -/
inductive Event where
  | error (msg : String)
  | loadMessages (msgs : List MessageWithSender)
  | newMessage (m : MessageWithSender)
  | userTyping (userId : String) (isTyping : Bool)
deriving DecidableEq, Repr

/-- An emission action: `socket.emit` (to one connection), `io.to(room).emit`
(to every room member, the sender included if it is a member),
`socket.to(room).emit` (to every room member except the sender), and
`socket.disconnect(true)`. -/
inductive Emit where
  | toConn (connId : String) (ev : Event)
  | toRoom (room : String) (ev : Event)
  | toRoomExcept (room exceptConn : String) (ev : Event)
  | disconnect (connId : String)
deriving DecidableEq, Repr

/-- The socket ids that receive an emission, given current room membership. -/
def Emit.recipients (chat : ChatState) : Emit → List String
  | .toConn c _ => [c]
  | .toRoom r _ => roomMembers chat r
  | .toRoomExcept r x _ => (roomMembers chat r).filter (fun c => c != x)
  | .disconnect _ => []

/-- Insert a message into a list sorted by ascending `createdAt`. -/
def insertByCreated (m : Message) : List Message → List Message
  | [] => [m]
  | x :: xs =>
    if m.createdAt ≤ x.createdAt then m :: x :: xs else x :: insertByCreated m xs

/-- Insertion sort by ascending `createdAt`: the `orderBy: {createdAt: 'asc'}`
of the message query. -/
def sortByCreated : List Message → List Message
  | [] => []
  | x :: xs => insertByCreated x (sortByCreated xs)

/-- `prisma.message.findMany({where: {taskId}, orderBy: {createdAt: 'asc'}})`. -/
def taskMessagesAsc (db : DB) (taskId : String) : List Message :=
  sortByCreated (db.messages.filter (fun m => m.taskId == taskId))

/-- The `take` limit of the `join_task` message query (`take: 50`). -/
def joinTakeLimit : Nat := 50

/-- The `join_task` socket handler (`socket/index.ts`): authorization is the
task's client or the accepted-bid freelancer; on success the connection
joins the task room and receives the first 50 messages by ascending
`createdAt` (with sender identities); otherwise an error is emitted to the
caller only and the socket is disconnected without joining. -/
def joinTask (db : DB) (chat : ChatState) (conn : Conn) (taskId : String) :
    ChatState × List Emit :=
  match findTask db taskId with
  | none => (chat, [.toConn conn.id (.error "Task not found")])
  | some task =>
    let isClient := task.clientId == conn.userId
    let isAcceptedFreelancer := (acceptedBids db taskId).any (fun b => b.freelancerId == conn.userId)
    if isClient || isAcceptedFreelancer then
      let chat1 := joinRoom chat ("task_" ++ taskId) conn.id
      let msgs := (taskMessagesAsc db taskId).take joinTakeLimit
      (chat1, [.toConn conn.id (.loadMessages (msgs.map (fun m => ⟨m, senderOf db m.senderId⟩)))])
    else
      (chat, [.toConn conn.id (.error "Unauthorized to join this task chat"), .disconnect conn.id])

/-- The `send_message` socket handler (`socket/index.ts`): authorization is
re-derived from the store on every call; an unauthorized caller gets an
error emission and nothing is persisted; otherwise the message is created
(`persistOk` models the fallible `prisma.message.create`) and, once
persisted, broadcast with `io.to(room)` — every member of the task room,
the sender's own connection included when it is in the room. -/
def sendMessage (db : DB) (conn : Conn) (taskId content : String)
    (newMsgId : String) (now : Nat) (persistOk : Bool) : DB × List Emit :=
  match findTask db taskId with
  | none => (db, [.toConn conn.id (.error "Task not found for message")])
  | some task =>
    let isClient := task.clientId == conn.userId
    let isAcceptedFreelancer := (acceptedBids db taskId).any (fun b => b.freelancerId == conn.userId)
    if !(isClient || isAcceptedFreelancer) then
      (db, [.toConn conn.id (.error "Unauthorized to send messages to this task")])
    else if persistOk then
      let m : Message := ⟨newMsgId, taskId, conn.userId, content, now⟩
      ({ db with messages := db.messages ++ [m] },
       [.toRoom ("task_" ++ taskId) (.newMessage ⟨m, senderOf db conn.userId⟩)])
    else
      (db, [.toConn conn.id (.error "Failed to send message")])

/-- The `typing` socket handler (`socket/index.ts`): no store access at all —
it broadcasts `user_typing` to the task room excluding the sender and
persists nothing. -/
def typingHandler (conn : Conn) (taskId : String) (isTyping : Bool) : List Emit :=
  [.toRoomExcept ("task_" ++ taskId) conn.id (.userTyping conn.userId isTyping)]

/-- The combined effect of the two bid updates of the accept transaction on
one row: the target bid becomes `accepted`, every other bid of the task
becomes `rejected`, other rows are untouched. -/
def acceptUpdate (bidId taskId : String) (b : Bid) : Bid :=
  if b.id == bidId then { b with status := BidStatus.accepted }
  else if b.taskId == taskId then { b with status := BidStatus.rejected }
  else b

/-- The task update of the accept transaction on one row. -/
def assignTask (taskId : String) (t : Task) : Task :=
  if t.id == taskId then { t with status := TaskStatus.assigned } else t

/-- The milestone update of the complete route on one row. -/
def completeMilestone (mid : String) (x : Milestone) : Milestone :=
  if x.id == mid then { x with status := MilestoneStatus.completed } else x

/-- The milestone update of the release-payment transaction on one row. -/
def payMilestone (mid : String) (x : Milestone) : Milestone :=
  if x.id == mid then { x with status := MilestoneStatus.paid } else x

/-- The task rollup update of the release-payment transaction (count 0). -/
def completeTask (tid : String) (t : Task) : Task :=
  if t.id == tid then { t with status := TaskStatus.completed } else t

/-- The task rollup update of the release-payment transaction (first payment). -/
def progressTask (tid : String) (t : Task) : Task :=
  if t.id == tid then { t with status := TaskStatus.in_progress } else t

/-- The empty store. -/
def DB.init : DB := ⟨[], [], [], [], [], []⟩

/-- One HTTP-handler invocation, as a step of the state machine.  Fresh
primary keys are required to be unused, which models the database's
generated UUIDs / primary-key constraint.  `notifyOk` ranges over both
values, so states left behind by failed post-transaction side effects are
reachable too. -/
inductive Step (nc : Bool) : DB → DB → Prop where
  | createTask (db : DB) (caller : Option JwtPayload) (title newTaskId : String)
      (hfresh : ∀ t ∈ db.tasks, t.id ≠ newTaskId) :
      Step nc db (createTask db caller title newTaskId).1
  | submitBid (db : DB) (caller : Option JwtPayload) (taskId : String)
      (amount : Nat) (proposal timeline newBidId : String) (notifyOk : Bool)
      (hfresh : ∀ b ∈ db.bids, b.id ≠ newBidId) :
      Step nc db (submitBid db caller taskId amount proposal timeline newBidId notifyOk).1
  | acceptBid (db : DB) (caller : Option String) (bidId : String) (notifyOk : Bool) :
      Step nc db (acceptBid db caller bidId notifyOk).1
  | createMilestone (db : DB) (caller : Option JwtPayload)
      (taskId title description : String) (amount dueDate : Nat)
      (newMilestoneId : String) (notifyOk : Bool)
      (hfresh : ∀ m ∈ db.milestones, m.id ≠ newMilestoneId)
      (hnc : nc = true → ∀ t ∈ db.tasks, t.id = taskId → t.status ≠ TaskStatus.completed) :
      Step nc db (createMilestone db caller taskId title description amount dueDate newMilestoneId notifyOk).1
  | requestCompletion (db : DB) (caller : Option JwtPayload) (milestoneId : String)
      (notifyOk : Bool) :
      Step nc db (requestCompletion db caller milestoneId notifyOk).1
  | releasePayment (db : DB) (caller : Option String) (milestoneId : String)
      (notifyOk : Bool) :
      Step nc db (releasePayment db caller milestoneId notifyOk).1

/-- States reachable by handler invocations from a store holding only
registered users (no tasks, bids, milestones, messages or notifications).
`Reachable false` is the unrestricted system; `Reachable true` additionally
forbids calling createMilestone on a task whose status is `completed`. -/
inductive Reachable (nc : Bool) (users : List User) : DB → Prop where
  | init : Reachable nc users ⟨users, [], [], [], [], []⟩
  | step {db db' : DB} : Reachable nc users db → Step nc db db' → Reachable nc users db'

theorem findTask_some {db : DB} {i : String} {t : Task} (h : findTask db i = some t) :
    t ∈ db.tasks ∧ t.id = i := by
  unfold findTask at h
  refine ⟨List.mem_of_find?_eq_some h, ?_⟩
  have hp := List.find?_some h
  simpa using hp

theorem findTask_none {db : DB} {i : String} (h : findTask db i = none) :
    ∀ t ∈ db.tasks, t.id ≠ i := by
  unfold findTask at h
  intro t ht
  have := List.find?_eq_none.mp h t ht
  simpa using this

theorem findBid_some {db : DB} {i : String} {b : Bid} (h : findBid db i = some b) :
    b ∈ db.bids ∧ b.id = i := by
  unfold findBid at h
  refine ⟨List.mem_of_find?_eq_some h, ?_⟩
  have hp := List.find?_some h
  simpa using hp

theorem findMilestone_some {db : DB} {i : String} {m : Milestone}
    (h : findMilestone db i = some m) : m ∈ db.milestones ∧ m.id = i := by
  unfold findMilestone at h
  refine ⟨List.mem_of_find?_eq_some h, ?_⟩
  have hp := List.find?_some h
  simpa using hp

theorem mem_acceptedBids {db : DB} {taskId : String} {b : Bid}
    (h : b ∈ acceptedBids db taskId) :
    b ∈ db.bids ∧ b.taskId = taskId ∧ b.status = BidStatus.accepted := by
  unfold acceptedBids at h
  have hm := List.mem_of_mem_filter h
  have hp := List.of_mem_filter h
  simp only [Bool.and_eq_true, beq_iff_eq] at hp
  exact ⟨hm, hp.1, hp.2⟩

theorem nodup_map_inj {α β : Type} {f : α → β} {l : List α}
    (h : (l.map f).Nodup) {a b : α} (ha : a ∈ l) (hb : b ∈ l) (hf : f a = f b) :
    a = b :=
  List.inj_on_of_nodup_map h ha hb hf

theorem nodup_append_one {α : Type} {l : List α} {a : α} (h : l.Nodup) (ha : a ∉ l) :
    (l ++ [a]).Nodup := by
  rw [List.nodup_append]
  refine ⟨h, List.nodup_singleton a, ?_⟩
  intro x hx hx1
  simp only [List.mem_singleton] at hx1
  exact ha (hx1 ▸ hx)

theorem createTask_fst (db : DB) (caller : Option JwtPayload) (title newTaskId : String) :
    (createTask db caller title newTaskId).1 = db ∨
    ∃ user, caller = some user ∧ user.role = UserRole.client ∧
      (createTask db caller title newTaskId).1 =
        { db with tasks := db.tasks ++ [⟨newTaskId, user.id, title, TaskStatus.open_⟩] } := by
  unfold createTask
  match caller with
  | none => exact Or.inl rfl
  | some user =>
    by_cases hr : user.role = UserRole.client
    · refine Or.inr ⟨user, rfl, hr, ?_⟩
      simp [hr]
    · left
      simp [hr]

theorem submitBid_fst (db : DB) (caller : Option JwtPayload) (taskId : String)
    (amount : Nat) (proposal timeline newBidId : String) (notifyOk : Bool) :
    (submitBid db caller taskId amount proposal timeline newBidId notifyOk).1 = db ∨
    ∃ user task, caller = some user ∧ user.role = UserRole.freelancer ∧
      findTask db taskId = some task ∧ task.status = TaskStatus.open_ ∧
      task.clientId ≠ user.id ∧
      ∃ notifs,
        (submitBid db caller taskId amount proposal timeline newBidId notifyOk).1 =
          { db with
              bids := db.bids ++
                [⟨newBidId, taskId, user.id, amount, proposal, timeline, BidStatus.pending⟩],
              notifications := notifs } := by
  unfold submitBid
  match caller with
  | none => exact Or.inl rfl
  | some user =>
    by_cases hr : user.role = UserRole.freelancer
    · simp only [hr, ne_eq, not_true_eq_false, if_false]
      match hft : findTask db taskId with
      | none => exact Or.inl rfl
      | some task =>
        by_cases hst : task.status = TaskStatus.open_
        · by_cases hown : task.clientId = user.id
          · left
            simp [hst, hown]
          · match hdup : db.bids.find? (fun b => b.taskId == taskId && b.freelancerId == user.id) with
            | some b0 =>
              left
              simp [hst, hown, hdup]
            | none =>
              refine Or.inr ⟨user, task, rfl, hr, rfl, hst, hown, ?_⟩
              cases notifyOk <;> simp [hst, hown, hdup]
        · left
          simp [hst]
    · left
      simp [hr]

theorem acceptBid_fst (db : DB) (caller : Option String) (bidId : String) (notifyOk : Bool) :
    (acceptBid db caller bidId notifyOk).1 = db ∨
    ∃ clientId bid task, caller = some clientId ∧
      findBid db bidId = some bid ∧ findTask db bid.taskId = some task ∧
      task.clientId = clientId ∧ task.status = TaskStatus.open_ ∧
      (acceptBid db caller bidId notifyOk).1.tasks = (acceptBidTx db bidId bid.taskId).tasks ∧
      (acceptBid db caller bidId notifyOk).1.bids = (acceptBidTx db bidId bid.taskId).bids ∧
      (acceptBid db caller bidId notifyOk).1.milestones = db.milestones := by
  rcases caller with _ | clientId
  · exact Or.inl rfl
  rcases hfb : findBid db bidId with _ | bid
  · exact Or.inl (by simp [acceptBid, hfb])
  rcases hft : findTask db bid.taskId with _ | task
  · exact Or.inl (by simp [acceptBid, hfb, hft])
  rcases hfu : findUser db bid.freelancerId with _ | fr
  · exact Or.inl (by simp [acceptBid, hfb, hft, hfu])
  by_cases hcl : task.clientId = clientId
  case neg => exact Or.inl (by simp [acceptBid, hfb, hft, hfu, hcl])
  by_cases hst : task.status = TaskStatus.open_
  case neg => exact Or.inl (by simp [acceptBid, hfb, hft, hfu, hcl, hst])
  refine Or.inr ⟨clientId, bid, task, rfl, rfl, hft, hcl, hst, ?_, ?_, ?_⟩ <;>
    cases notifyOk <;> simp [acceptBid, hfb, hft, hfu, hcl, hst, acceptBidTx]

theorem createMilestone_fst (db : DB) (caller : Option JwtPayload)
    (taskId title description : String) (amount dueDate : Nat)
    (newMilestoneId : String) (notifyOk : Bool) :
    (createMilestone db caller taskId title description amount dueDate newMilestoneId notifyOk).1 = db ∨
    ∃ user task, caller = some user ∧ user.role = UserRole.client ∧
      findTask db taskId = some task ∧ task.clientId = user.id ∧
      (createMilestone db caller taskId title description amount dueDate newMilestoneId notifyOk).1.tasks = db.tasks ∧
      (createMilestone db caller taskId title description amount dueDate newMilestoneId notifyOk).1.bids = db.bids ∧
      (createMilestone db caller taskId title description amount dueDate newMilestoneId notifyOk).1.milestones =
        db.milestones ++
          [⟨newMilestoneId, taskId, title, description, amount, dueDate, MilestoneStatus.pending⟩] := by
  rcases caller with _ | user
  · exact Or.inl rfl
  by_cases hr : user.role = UserRole.client
  case neg => exact Or.inl (by simp [createMilestone, hr])
  rcases hft : findTask db taskId with _ | task
  · exact Or.inl (by simp [createMilestone, hr, hft])
  by_cases hcl : task.clientId = user.id
  case neg => exact Or.inl (by simp [createMilestone, hr, hft, hcl])
  refine Or.inr ⟨user, task, rfl, hr, rfl, hcl, ?_, ?_, ?_⟩ <;>
    rcases hab : acceptedBids db taskId with _ | ⟨ab, rest⟩ <;>
      cases notifyOk <;> simp [createMilestone, hr, hft, hcl, hab]

theorem requestCompletion_fst (db : DB) (caller : Option JwtPayload) (milestoneId : String)
    (notifyOk : Bool) :
    (requestCompletion db caller milestoneId notifyOk).1 = db ∨
    ∃ user m task ab rest, caller = some user ∧
      findMilestone db milestoneId = some m ∧ findTask db m.taskId = some task ∧
      acceptedBids db m.taskId = ab :: rest ∧ ab.freelancerId = user.id ∧
      m.status = MilestoneStatus.pending ∧
      (requestCompletion db caller milestoneId notifyOk).1.tasks = db.tasks ∧
      (requestCompletion db caller milestoneId notifyOk).1.bids = db.bids ∧
      (requestCompletion db caller milestoneId notifyOk).1.milestones =
        db.milestones.map (completeMilestone milestoneId) := by
  rcases hfm : findMilestone db milestoneId with _ | m
  · exact Or.inl (by simp [requestCompletion, hfm])
  rcases hft : findTask db m.taskId with _ | task
  · exact Or.inl (by simp [requestCompletion, hfm, hft])
  rcases hab : acceptedBids db m.taskId with _ | ⟨ab, rest⟩
  · exact Or.inl (by simp [requestCompletion, hfm, hft, hab])
  rcases caller with _ | user
  · exact Or.inl (by simp [requestCompletion, hfm, hft, hab])
  by_cases hfr : ab.freelancerId = user.id
  case neg => exact Or.inl (by simp [requestCompletion, hfm, hft, hab, hfr])
  by_cases hst : m.status = MilestoneStatus.pending
  case neg => exact Or.inl (by simp [requestCompletion, hfm, hft, hab, hfr, hst])
  refine Or.inr ⟨user, m, task, ab, rest, rfl, rfl, hft, hab, hfr, hst, ?_, ?_, ?_⟩ <;>
    cases notifyOk <;> simp [requestCompletion, hfm, hft, hab, hfr, hst, completeMilestone]

theorem releasePayment_fst (db : DB) (caller : Option String) (milestoneId : String)
    (notifyOk : Bool) :
    (releasePayment db caller milestoneId notifyOk).1 = db ∨
    ∃ m task, caller = some task.clientId ∧
      findMilestone db milestoneId = some m ∧ findTask db m.taskId = some task ∧
      m.status = MilestoneStatus.completed ∧
      (releasePayment db caller milestoneId notifyOk).1.tasks = (releasePaymentTx db m task.status).tasks ∧
      (releasePayment db caller milestoneId notifyOk).1.bids = db.bids ∧
      (releasePayment db caller milestoneId notifyOk).1.milestones =
        (releasePaymentTx db m task.status).milestones := by
  rcases hfm : findMilestone db milestoneId with _ | m
  · exact Or.inl (by simp [releasePayment, hfm])
  rcases hft : findTask db m.taskId with _ | task
  · exact Or.inl (by simp [releasePayment, hfm, hft])
  by_cases hcl : some task.clientId = caller
  case neg => exact Or.inl (by simp [releasePayment, hfm, hft, hcl])
  by_cases hst : m.status = MilestoneStatus.completed
  case neg => exact Or.inl (by simp [releasePayment, hfm, hft, hcl, hst])
  refine Or.inr ⟨m, task, hcl.symm, rfl, hft, hst, ?_, ?_, ?_⟩ <;>
    rcases hab : acceptedBids db m.taskId with _ | ⟨ab, rest⟩ <;>
      cases notifyOk <;> simp [releasePayment, hfm, hft, hcl, hst, hab, releasePaymentTx]

/-- The inductive invariant of the marketplace state machine, over the task,
bid and milestone tables: primary keys are unique, foreign keys resolve,
bids and milestones of an `open` task are all `pending`, a task that has
left `open` has exactly one `accepted` bid with every sibling `rejected`,
a `completed` task has at least one milestone, and a task that is not
`completed` but has milestones has an unpaid one. -/
structure InvL (ts : List Task) (bs : List Bid) (ms : List Milestone) : Prop where
  taskIdsNodup : (ts.map Task.id).Nodup
  bidIdsNodup : (bs.map Bid.id).Nodup
  milestoneIdsNodup : (ms.map Milestone.id).Nodup
  bidFK : ∀ b ∈ bs, ∃ t ∈ ts, t.id = b.taskId
  milestoneFK : ∀ m ∈ ms, ∃ t ∈ ts, t.id = m.taskId
  openBidsPending : ∀ t ∈ ts, t.status = TaskStatus.open_ →
    ∀ b ∈ bs, b.taskId = t.id → b.status = BidStatus.pending
  openMilestonesPending : ∀ t ∈ ts, t.status = TaskStatus.open_ →
    ∀ m ∈ ms, m.taskId = t.id → m.status = MilestoneStatus.pending
  nonOpenAccepted : ∀ t ∈ ts, t.status ≠ TaskStatus.open_ →
    ∃ b ∈ bs, b.taskId = t.id ∧ b.status = BidStatus.accepted ∧
      ∀ b' ∈ bs, b'.taskId = t.id → b'.id ≠ b.id → b'.status = BidStatus.rejected
  completedHasMilestone : ∀ t ∈ ts, t.status = TaskStatus.completed →
    ∃ m ∈ ms, m.taskId = t.id
  notCompletedUnpaid : ∀ t ∈ ts, t.status ≠ TaskStatus.completed →
    ∀ m ∈ ms, m.taskId = t.id →
      ∃ m2 ∈ ms, m2.taskId = t.id ∧ m2.status ≠ MilestoneStatus.paid

/-- The invariant, as a property of a store. -/
def Inv (db : DB) : Prop := InvL db.tasks db.bids db.milestones

theorem invL_createTask {ts : List Task} {bs : List Bid} {ms : List Milestone}
    (h : InvL ts bs ms) {newId cid title : String}
    (hfresh : ∀ t ∈ ts, t.id ≠ newId) :
    InvL (ts ++ [⟨newId, cid, title, TaskStatus.open_⟩]) bs ms := by
  obtain ⟨h1, h2, h3, h4, h5, h6, h7, h8, h9, h10⟩ := h
  have hnotmem : newId ∉ ts.map Task.id := by
    intro hmem
    obtain ⟨t, htmem, htid⟩ := List.mem_map.mp hmem
    exact hfresh t htmem htid
  constructor
  · rw [List.map_append]
    exact nodup_append_one h1 (by simpa using hnotmem)
  · exact h2
  · exact h3
  · intro b hb
    obtain ⟨t, ht, hid⟩ := h4 b hb
    exact ⟨t, List.mem_append_left _ ht, hid⟩
  · intro m hm
    obtain ⟨t, ht, hid⟩ := h5 m hm
    exact ⟨t, List.mem_append_left _ ht, hid⟩
  · intro t ht hop b hb hbt
    rcases List.mem_append.mp ht with ht0 | ht0
    · exact h6 t ht0 hop b hb hbt
    · obtain rfl : t = ⟨newId, cid, title, TaskStatus.open_⟩ := by simpa using ht0
      obtain ⟨t2, ht2, ht2id⟩ := h4 b hb
      exact absurd (ht2id.trans hbt) (hfresh t2 ht2)
  · intro t ht hop m hm hmt
    rcases List.mem_append.mp ht with ht0 | ht0
    · exact h7 t ht0 hop m hm hmt
    · obtain rfl : t = ⟨newId, cid, title, TaskStatus.open_⟩ := by simpa using ht0
      obtain ⟨t2, ht2, ht2id⟩ := h5 m hm
      exact absurd (ht2id.trans hmt) (hfresh t2 ht2)
  · intro t ht hnop
    rcases List.mem_append.mp ht with ht0 | ht0
    · exact h8 t ht0 hnop
    · obtain rfl : t = ⟨newId, cid, title, TaskStatus.open_⟩ := by simpa using ht0
      exact absurd rfl hnop
  · intro t ht hcomp
    rcases List.mem_append.mp ht with ht0 | ht0
    · exact h9 t ht0 hcomp
    · obtain rfl : t = ⟨newId, cid, title, TaskStatus.open_⟩ := by simpa using ht0
      exact absurd hcomp (by simp)
  · intro t ht hncomp m hm hmt
    rcases List.mem_append.mp ht with ht0 | ht0
    · exact h10 t ht0 hncomp m hm hmt
    · obtain rfl : t = ⟨newId, cid, title, TaskStatus.open_⟩ := by simpa using ht0
      obtain ⟨t2, ht2, ht2id⟩ := h5 m hm
      exact absurd (ht2id.trans hmt) (hfresh t2 ht2)

theorem invL_submitBid {ts : List Task} {bs : List Bid} {ms : List Milestone}
    (h : InvL ts bs ms) {task : Task} {newBidId taskId fid : String}
    {amount : Nat} {proposal timeline : String}
    (hfresh : ∀ b ∈ bs, b.id ≠ newBidId)
    (htask : task ∈ ts) (hid : task.id = taskId) (hopen : task.status = TaskStatus.open_) :
    InvL ts (bs ++ [⟨newBidId, taskId, fid, amount, proposal, timeline, BidStatus.pending⟩]) ms := by
  obtain ⟨h1, h2, h3, h4, h5, h6, h7, h8, h9, h10⟩ := h
  have hnotmem : newBidId ∉ bs.map Bid.id := by
    intro hmem
    obtain ⟨b, hbmem, hbid⟩ := List.mem_map.mp hmem
    exact hfresh b hbmem hbid
  constructor
  · exact h1
  · rw [List.map_append]
    exact nodup_append_one h2 (by simpa using hnotmem)
  · exact h3
  · intro b hb
    rcases List.mem_append.mp hb with hb0 | hb0
    · exact h4 b hb0
    · obtain rfl : b = ⟨newBidId, taskId, fid, amount, proposal, timeline, BidStatus.pending⟩ := by
        simpa using hb0
      exact ⟨task, htask, hid⟩
  · exact h5
  · intro t ht hop b hb hbt
    rcases List.mem_append.mp hb with hb0 | hb0
    · exact h6 t ht hop b hb0 hbt
    · obtain rfl : b = ⟨newBidId, taskId, fid, amount, proposal, timeline, BidStatus.pending⟩ := by
        simpa using hb0
      rfl
  · exact h7
  · intro t ht hnop
    obtain ⟨b, hb, hbt, hbacc, hsib⟩ := h8 t ht hnop
    refine ⟨b, List.mem_append_left _ hb, hbt, hbacc, ?_⟩
    intro b' hb' hbt' hbid'
    rcases List.mem_append.mp hb' with hb0 | hb0
    · exact hsib b' hb0 hbt' hbid'
    · obtain rfl : b' = ⟨newBidId, taskId, fid, amount, proposal, timeline, BidStatus.pending⟩ := by
        simpa using hb0
      exfalso
      have : taskId = t.id := hbt'
      have htt : task = t := nodup_map_inj h1 htask ht (by rw [hid, this])
      rw [← htt] at hnop
      exact hnop hopen
  · exact h9
  · exact h10

theorem acceptBidTx_bids (db : DB) (bidId taskId : String) :
    (acceptBidTx db bidId taskId).bids = db.bids.map (acceptUpdate bidId taskId) := by
  show (db.bids.map _).map _ = _
  rw [List.map_map]
  apply List.map_congr_left
  intro b _
  by_cases h : b.id = bidId
  · simp [acceptUpdate, h, Function.comp]
  · by_cases h2 : b.taskId = taskId
    · simp [acceptUpdate, h, h2, Function.comp]
    · simp [acceptUpdate, h, h2, Function.comp]

theorem acceptBidTx_tasks (db : DB) (bidId taskId : String) :
    (acceptBidTx db bidId taskId).tasks = db.tasks.map (assignTask taskId) := rfl

theorem acceptBidTx_milestones (db : DB) (bidId taskId : String) :
    (acceptBidTx db bidId taskId).milestones = db.milestones := rfl

theorem acceptUpdate_id (bidId tid : String) (b : Bid) :
    (acceptUpdate bidId tid b).id = b.id := by
  unfold acceptUpdate
  split
  · rfl
  · split <;> rfl

theorem acceptUpdate_taskId (bidId tid : String) (b : Bid) :
    (acceptUpdate bidId tid b).taskId = b.taskId := by
  unfold acceptUpdate
  split
  · rfl
  · split <;> rfl

theorem acceptUpdate_self {bidId tid : String} {b : Bid} (h : b.id = bidId) :
    acceptUpdate bidId tid b = { b with status := BidStatus.accepted } := by
  simp [acceptUpdate, h]

theorem acceptUpdate_sibling {bidId tid : String} {b : Bid} (hne : b.id ≠ bidId)
    (htid : b.taskId = tid) :
    acceptUpdate bidId tid b = { b with status := BidStatus.rejected } := by
  simp [acceptUpdate, hne, htid]

theorem acceptUpdate_other {bidId tid : String} {b : Bid} (hne : b.id ≠ bidId)
    (htid : b.taskId ≠ tid) : acceptUpdate bidId tid b = b := by
  simp [acceptUpdate, hne, htid]

theorem assignTask_id (tid : String) (t : Task) : (assignTask tid t).id = t.id := by
  unfold assignTask
  split <;> rfl

theorem assignTask_self {tid : String} {t : Task} (h : t.id = tid) :
    assignTask tid t = { t with status := TaskStatus.assigned } := by
  simp [assignTask, h]

theorem assignTask_other {tid : String} {t : Task} (h : t.id ≠ tid) :
    assignTask tid t = t := by
  simp [assignTask, h]

theorem invL_acceptBid {ts : List Task} {bs : List Bid} {ms : List Milestone}
    (h : InvL ts bs ms) {bid : Bid} {task : Task} {bidId : String}
    (hb : bid ∈ bs) (hbid : bid.id = bidId)
    (ht : task ∈ ts) (htid : task.id = bid.taskId)
    (hopen : task.status = TaskStatus.open_) :
    InvL (ts.map (assignTask bid.taskId)) (bs.map (acceptUpdate bidId bid.taskId)) ms := by
  obtain ⟨h1, h2, h3, h4, h5, h6, h7, h8, h9, h10⟩ := h
  -- a bid whose row is not of the accepted bid's task is untouched
  have huntouched : ∀ b ∈ bs, b.taskId ≠ bid.taskId → acceptUpdate bidId bid.taskId b = b := by
    intro b hbmem hne
    refine acceptUpdate_other ?_ hne
    intro hid
    exact hne (by rw [nodup_map_inj h2 hbmem hb (hid.trans hbid.symm)])
  constructor
  · rw [List.map_map]
    have hc : Task.id ∘ assignTask bid.taskId = Task.id := funext (assignTask_id bid.taskId)
    rw [hc]
    exact h1
  · rw [List.map_map]
    have hc : Bid.id ∘ acceptUpdate bidId bid.taskId = Bid.id :=
      funext (acceptUpdate_id bidId bid.taskId)
    rw [hc]
    exact h2
  · exact h3
  · intro b' hb'
    obtain ⟨b, hbmem, rfl⟩ := List.mem_map.mp hb'
    obtain ⟨t, htmem, htid2⟩ := h4 b hbmem
    exact ⟨assignTask bid.taskId t, List.mem_map_of_mem _ htmem,
      by rw [assignTask_id, acceptUpdate_taskId]; exact htid2⟩
  · intro m hm
    obtain ⟨t, htmem, htid2⟩ := h5 m hm
    exact ⟨assignTask bid.taskId t, List.mem_map_of_mem _ htmem, by rw [assignTask_id]; exact htid2⟩
  · intro t' ht' hop b' hb' hbt'
    obtain ⟨t, htmem, rfl⟩ := List.mem_map.mp ht'
    obtain ⟨b, hbmem, rfl⟩ := List.mem_map.mp hb'
    by_cases hteq : t.id = bid.taskId
    · rw [assignTask_self hteq] at hop
      exact absurd hop (by simp)
    · rw [assignTask_other hteq] at hbt' hop
      have hbtask : b.taskId ≠ bid.taskId := by
        rw [acceptUpdate_taskId] at hbt'
        rw [hbt']
        exact hteq
      rw [huntouched b hbmem hbtask] at hbt' ⊢
      exact h6 t htmem hop b hbmem hbt'
  · intro t' ht' hop m hm hmt
    obtain ⟨t, htmem, rfl⟩ := List.mem_map.mp ht'
    by_cases hteq : t.id = bid.taskId
    · rw [assignTask_self hteq] at hop
      exact absurd hop (by simp)
    · rw [assignTask_other hteq] at hop hmt
      exact h7 t htmem hop m hm hmt
  · intro t' ht' hnop
    obtain ⟨t, htmem, rfl⟩ := List.mem_map.mp ht'
    by_cases hteq : t.id = bid.taskId
    · -- the task being assigned: t = task, the accepted bid is the target
      have hteqtask : t = task := nodup_map_inj h1 htmem ht (hteq.trans htid.symm)
      subst hteqtask
      refine ⟨acceptUpdate bidId bid.taskId bid, List.mem_map_of_mem _ hb, ?_, ?_, ?_⟩
      · rw [acceptUpdate_taskId, assignTask_id, hteq]
      · rw [acceptUpdate_self hbid]
      · intro b'' hb'' hbt'' hbid''
        obtain ⟨b2, hb2mem, rfl⟩ := List.mem_map.mp hb''
        have hb2ne : b2.id ≠ bidId := by
          intro hcontra
          apply hbid''
          rw [acceptUpdate_id, acceptUpdate_id, hcontra, hbid]
        have hb2t : b2.taskId = bid.taskId := by
          rw [acceptUpdate_taskId] at hbt''
          rw [hbt'', assignTask_id, hteq]
        rw [acceptUpdate_sibling hb2ne hb2t]
    · -- an unrelated task keeps its accepted/rejected structure
      rw [assignTask_other hteq] at hnop ⊢
      obtain ⟨b, hbmem, hbt, hbacc, hsib⟩ := h8 t htmem hnop
      have hbne : b.taskId ≠ bid.taskId := by
        rw [hbt]
        exact hteq
      refine ⟨acceptUpdate bidId bid.taskId b, List.mem_map_of_mem _ hbmem, ?_, ?_, ?_⟩
      · rw [huntouched b hbmem hbne]
        exact hbt
      · rw [huntouched b hbmem hbne]
        exact hbacc
      · intro b'' hb'' hbt'' hbid''
        obtain ⟨b2, hb2mem, rfl⟩ := List.mem_map.mp hb''
        have hb2ne : b2.taskId ≠ bid.taskId := by
          rw [acceptUpdate_taskId] at hbt''
          rw [hbt'']
          exact hteq
        rw [huntouched b2 hb2mem hb2ne] at hbt'' hbid'' ⊢
        rw [huntouched b hbmem hbne] at hbid''
        exact hsib b2 hb2mem hbt'' hbid''
  · intro t' ht' hcomp
    obtain ⟨t, htmem, rfl⟩ := List.mem_map.mp ht'
    by_cases hteq : t.id = bid.taskId
    · rw [assignTask_self hteq] at hcomp
      exact absurd hcomp (by simp)
    · rw [assignTask_other hteq] at hcomp ⊢
      exact h9 t htmem hcomp
  · intro t' ht' hncomp m hm hmt
    obtain ⟨t, htmem, rfl⟩ := List.mem_map.mp ht'
    by_cases hteq : t.id = bid.taskId
    · have hteqtask : t = task := nodup_map_inj h1 htmem ht (hteq.trans htid.symm)
      subst hteqtask
      rw [assignTask_self hteq] at hmt ⊢
      have : t.status ≠ TaskStatus.completed := by
        rw [hopen]
        simp
      exact h10 t htmem this m hm hmt
    · rw [assignTask_other hteq] at hncomp hmt ⊢
      exact h10 t htmem hncomp m hm hmt

theorem completeMilestone_id (mid : String) (x : Milestone) :
    (completeMilestone mid x).id = x.id := by
  unfold completeMilestone
  split <;> rfl

theorem completeMilestone_taskId (mid : String) (x : Milestone) :
    (completeMilestone mid x).taskId = x.taskId := by
  unfold completeMilestone
  split <;> rfl

theorem completeMilestone_self {mid : String} {x : Milestone} (h : x.id = mid) :
    completeMilestone mid x = { x with status := MilestoneStatus.completed } := by
  simp [completeMilestone, h]

theorem completeMilestone_other {mid : String} {x : Milestone} (h : x.id ≠ mid) :
    completeMilestone mid x = x := by
  simp [completeMilestone, h]

theorem payMilestone_id (mid : String) (x : Milestone) :
    (payMilestone mid x).id = x.id := by
  unfold payMilestone
  split <;> rfl

theorem payMilestone_taskId (mid : String) (x : Milestone) :
    (payMilestone mid x).taskId = x.taskId := by
  unfold payMilestone
  split <;> rfl

theorem payMilestone_self {mid : String} {x : Milestone} (h : x.id = mid) :
    payMilestone mid x = { x with status := MilestoneStatus.paid } := by
  simp [payMilestone, h]

theorem payMilestone_other {mid : String} {x : Milestone} (h : x.id ≠ mid) :
    payMilestone mid x = x := by
  simp [payMilestone, h]

theorem completeTask_id (tid : String) (t : Task) : (completeTask tid t).id = t.id := by
  unfold completeTask
  split <;> rfl

theorem completeTask_self {tid : String} {t : Task} (h : t.id = tid) :
    completeTask tid t = { t with status := TaskStatus.completed } := by
  simp [completeTask, h]

theorem completeTask_other {tid : String} {t : Task} (h : t.id ≠ tid) :
    completeTask tid t = t := by
  simp [completeTask, h]

theorem progressTask_id (tid : String) (t : Task) : (progressTask tid t).id = t.id := by
  unfold progressTask
  split <;> rfl

theorem progressTask_self {tid : String} {t : Task} (h : t.id = tid) :
    progressTask tid t = { t with status := TaskStatus.in_progress } := by
  simp [progressTask, h]

theorem progressTask_other {tid : String} {t : Task} (h : t.id ≠ tid) :
    progressTask tid t = t := by
  simp [progressTask, h]

theorem invL_createMilestone {ts : List Task} {bs : List Bid} {ms : List Milestone}
    (h : InvL ts bs ms) {task : Task}
    {newId taskId title description : String} {amount dueDate : Nat}
    (hfresh : ∀ m ∈ ms, m.id ≠ newId)
    (htask : task ∈ ts) (hid : task.id = taskId) :
    InvL ts bs
      (ms ++ [⟨newId, taskId, title, description, amount, dueDate, MilestoneStatus.pending⟩]) := by
  obtain ⟨h1, h2, h3, h4, h5, h6, h7, h8, h9, h10⟩ := h
  have hnotmem : newId ∉ ms.map Milestone.id := by
    intro hmem
    obtain ⟨x, hxmem, hxid⟩ := List.mem_map.mp hmem
    exact hfresh x hxmem hxid
  constructor
  · exact h1
  · exact h2
  · rw [List.map_append]
    exact nodup_append_one h3 (by simpa using hnotmem)
  · exact h4
  · intro m hm
    rcases List.mem_append.mp hm with hm0 | hm0
    · exact h5 m hm0
    · obtain rfl : m = ⟨newId, taskId, title, description, amount, dueDate, MilestoneStatus.pending⟩ := by
        simpa using hm0
      exact ⟨task, htask, hid⟩
  · exact h6
  · intro t ht hop m hm hmt
    rcases List.mem_append.mp hm with hm0 | hm0
    · exact h7 t ht hop m hm0 hmt
    · obtain rfl : m = ⟨newId, taskId, title, description, amount, dueDate, MilestoneStatus.pending⟩ := by
        simpa using hm0
      rfl
  · exact h8
  · intro t ht hcomp
    obtain ⟨m, hm, hmt⟩ := h9 t ht hcomp
    exact ⟨m, List.mem_append_left _ hm, hmt⟩
  · intro t ht hncomp m hm hmt
    rcases List.mem_append.mp hm with hm0 | hm0
    · obtain ⟨m2, hm2, hm2t, hm2p⟩ := h10 t ht hncomp m hm0 hmt
      exact ⟨m2, List.mem_append_left _ hm2, hm2t, hm2p⟩
    · obtain rfl : m = ⟨newId, taskId, title, description, amount, dueDate, MilestoneStatus.pending⟩ := by
        simpa using hm0
      refine ⟨_, List.mem_append_right _ (List.mem_singleton_self _), hmt, ?_⟩
      simp

theorem invL_requestCompletion {ts : List Task} {bs : List Bid} {ms : List Milestone}
    (h : InvL ts bs ms) {m : Milestone} {ab : Bid} {milestoneId : String}
    (hm : m ∈ ms) (hmid : m.id = milestoneId) (hpend : m.status = MilestoneStatus.pending)
    (hab : ab ∈ bs) (habt : ab.taskId = m.taskId) (habacc : ab.status = BidStatus.accepted) :
    InvL ts bs (ms.map (completeMilestone milestoneId)) := by
  obtain ⟨h1, h2, h3, h4, h5, h6, h7, h8, h9, h10⟩ := h
  -- a milestone row other than the target is untouched
  have huntouched : ∀ x ∈ ms, x.taskId ≠ m.taskId → completeMilestone milestoneId x = x := by
    intro x hxmem hne
    refine completeMilestone_other ?_
    intro hid
    exact hne (by rw [nodup_map_inj h3 hxmem hm (hid.trans hmid.symm)])
  constructor
  · exact h1
  · exact h2
  · rw [List.map_map]
    have hc : Milestone.id ∘ completeMilestone milestoneId = Milestone.id :=
      funext (completeMilestone_id milestoneId)
    rw [hc]
    exact h3
  · exact h4
  · intro x' hx'
    obtain ⟨x, hxmem, rfl⟩ := List.mem_map.mp hx'
    obtain ⟨t, htmem, htid2⟩ := h5 x hxmem
    exact ⟨t, htmem, by rw [completeMilestone_taskId]; exact htid2⟩
  · exact h6
  · intro t ht hop x' hx' hxt
    obtain ⟨x, hxmem, rfl⟩ := List.mem_map.mp hx'
    rw [completeMilestone_taskId] at hxt
    by_cases hxeq : x.id = milestoneId
    · exfalso
      have hxm : x = m := nodup_map_inj h3 hxmem hm (hxeq.trans hmid.symm)
      subst hxm
      have := h6 t ht hop ab hab (habt.trans hxt)
      rw [habacc] at this
      exact absurd this (by simp)
    · rw [completeMilestone_other hxeq]
      exact h7 t ht hop x hxmem hxt
  · exact h8
  · intro t ht hcomp
    obtain ⟨x, hxmem, hxt⟩ := h9 t ht hcomp
    exact ⟨completeMilestone milestoneId x, List.mem_map_of_mem _ hxmem,
      by rw [completeMilestone_taskId]; exact hxt⟩
  · intro t ht hncomp x' hx' hxt
    obtain ⟨x, hxmem, rfl⟩ := List.mem_map.mp hx'
    rw [completeMilestone_taskId] at hxt
    obtain ⟨m2, hm2, hm2t, hm2p⟩ := h10 t ht hncomp x hxmem hxt
    refine ⟨completeMilestone milestoneId m2, List.mem_map_of_mem _ hm2,
      by rw [completeMilestone_taskId]; exact hm2t, ?_⟩
    by_cases hm2eq : m2.id = milestoneId
    · rw [completeMilestone_self hm2eq]
      simp
    · rw [completeMilestone_other hm2eq]
      exact hm2p

theorem releasePaymentTx_eq (db : DB) (m : Milestone) (ts0 : TaskStatus) :
    releasePaymentTx db m ts0 =
      { db with
          milestones := db.milestones.map (payMilestone m.id),
          tasks :=
            if (((db.milestones.map (payMilestone m.id)).filter
                  (fun x => x.taskId == m.taskId && x.status != MilestoneStatus.paid)).length == 0)
            then db.tasks.map (completeTask m.taskId)
            else if ts0 == TaskStatus.assigned then db.tasks.map (progressTask m.taskId)
            else db.tasks } := rfl

/-- Shared fields of the release-payment preservation: milestone table facts
that do not depend on the task-rollup branch. -/
theorem invL_pay_common {ts : List Task} {bs : List Bid} {ms : List Milestone}
    (h : InvL ts bs ms) {m : Milestone} {task : Task}
    (hm : m ∈ ms) (hcomp : m.status = MilestoneStatus.completed)
    (ht : task ∈ ts) (htid : task.id = m.taskId) :
    task.status ≠ TaskStatus.open_ ∧
    (∀ x ∈ ms, x.taskId ≠ m.taskId → payMilestone m.id x = x) ∧
    ((ms.map (payMilestone m.id)).map Milestone.id).Nodup := by
  obtain ⟨h1, h2, h3, h4, h5, h6, h7, h8, h9, h10⟩ := h
  refine ⟨?_, ?_, ?_⟩
  · intro hop
    have := h7 task ht hop m hm htid.symm
    rw [hcomp] at this
    exact absurd this (by simp)
  · intro x hxmem hne
    refine payMilestone_other ?_
    intro hid
    exact hne (by rw [nodup_map_inj h3 hxmem hm hid])
  · rw [List.map_map]
    have hc : Milestone.id ∘ payMilestone m.id = Milestone.id := funext (payMilestone_id m.id)
    rw [hc]
    exact h3

theorem invL_payComplete {ts : List Task} {bs : List Bid} {ms : List Milestone}
    (h : InvL ts bs ms) {m : Milestone} {task : Task}
    (hm : m ∈ ms) (hcomp : m.status = MilestoneStatus.completed)
    (ht : task ∈ ts) (htid : task.id = m.taskId) :
    InvL (ts.map (completeTask m.taskId)) bs (ms.map (payMilestone m.id)) := by
  obtain ⟨htnop, huntouched, hnodup⟩ := invL_pay_common h hm hcomp ht htid
  obtain ⟨h1, h2, h3, h4, h5, h6, h7, h8, h9, h10⟩ := h
  constructor
  · rw [List.map_map]
    have hc : Task.id ∘ completeTask m.taskId = Task.id := funext (completeTask_id m.taskId)
    rw [hc]
    exact h1
  · exact h2
  · exact hnodup
  · intro b hb
    obtain ⟨t, htmem, htid2⟩ := h4 b hb
    exact ⟨completeTask m.taskId t, List.mem_map_of_mem _ htmem,
      by rw [completeTask_id]; exact htid2⟩
  · intro x' hx'
    obtain ⟨x, hxmem, rfl⟩ := List.mem_map.mp hx'
    obtain ⟨t, htmem, htid2⟩ := h5 x hxmem
    exact ⟨completeTask m.taskId t, List.mem_map_of_mem _ htmem,
      by rw [completeTask_id, payMilestone_taskId]; exact htid2⟩
  · intro t' ht' hop b hb hbt
    obtain ⟨t, htmem, rfl⟩ := List.mem_map.mp ht'
    by_cases hteq : t.id = m.taskId
    · rw [completeTask_self hteq] at hop
      exact absurd hop (by simp)
    · rw [completeTask_other hteq] at hop hbt
      exact h6 t htmem hop b hb hbt
  · intro t' ht' hop x' hx' hxt
    obtain ⟨t, htmem, rfl⟩ := List.mem_map.mp ht'
    obtain ⟨x, hxmem, rfl⟩ := List.mem_map.mp hx'
    by_cases hteq : t.id = m.taskId
    · rw [completeTask_self hteq] at hop
      exact absurd hop (by simp)
    · rw [completeTask_other hteq] at hop hxt
      rw [payMilestone_taskId] at hxt
      have hxne : x.taskId ≠ m.taskId := by
        rw [hxt]
        exact hteq
      rw [huntouched x hxmem hxne]
      exact h7 t htmem hop x hxmem hxt
  · intro t' ht' hnop
    obtain ⟨t, htmem, rfl⟩ := List.mem_map.mp ht'
    by_cases hteq : t.id = m.taskId
    · have httask : t = task := nodup_map_inj h1 htmem ht (hteq.trans htid.symm)
      subst httask
      obtain ⟨b, hbmem, hbt, hbacc, hsib⟩ := h8 t htmem htnop
      refine ⟨b, hbmem, ?_, hbacc, ?_⟩
      · rw [completeTask_self hteq]
        exact hbt
      · intro b' hb' hbt' hbid'
        rw [completeTask_self hteq] at hbt'
        exact hsib b' hb' hbt' hbid'
    · rw [completeTask_other hteq] at hnop ⊢
      exact h8 t htmem hnop
  · intro t' ht' hcompl
    obtain ⟨t, htmem, rfl⟩ := List.mem_map.mp ht'
    by_cases hteq : t.id = m.taskId
    · refine ⟨payMilestone m.id m, List.mem_map_of_mem _ hm, ?_⟩
      rw [payMilestone_taskId, completeTask_self hteq]
      exact hteq.symm
    · rw [completeTask_other hteq] at hcompl ⊢
      obtain ⟨x, hxmem, hxt⟩ := h9 t htmem hcompl
      exact ⟨payMilestone m.id x, List.mem_map_of_mem _ hxmem,
        by rw [payMilestone_taskId]; exact hxt⟩
  · intro t' ht' hncomp x' hx' hxt
    obtain ⟨t, htmem, rfl⟩ := List.mem_map.mp ht'
    obtain ⟨x, hxmem, rfl⟩ := List.mem_map.mp hx'
    by_cases hteq : t.id = m.taskId
    · exfalso
      apply hncomp
      rw [completeTask_self hteq]
    · rw [completeTask_other hteq] at hncomp hxt ⊢
      rw [payMilestone_taskId] at hxt
      obtain ⟨m2, hm2, hm2t, hm2p⟩ := h10 t htmem hncomp x hxmem hxt
      have hm2ne : m2.taskId ≠ m.taskId := by
        rw [hm2t]
        exact hteq
      refine ⟨payMilestone m.id m2, List.mem_map_of_mem _ hm2, ?_, ?_⟩
      · rw [huntouched m2 hm2 hm2ne]
        exact hm2t
      · rw [huntouched m2 hm2 hm2ne]
        exact hm2p

theorem invL_payProgress {ts : List Task} {bs : List Bid} {ms : List Milestone}
    (h : InvL ts bs ms) {m : Milestone} {task : Task}
    (hm : m ∈ ms) (hcomp : m.status = MilestoneStatus.completed)
    (ht : task ∈ ts) (htid : task.id = m.taskId)
    (hrem : ∃ x ∈ ms.map (payMilestone m.id),
      x.taskId = m.taskId ∧ x.status ≠ MilestoneStatus.paid) :
    InvL (ts.map (progressTask m.taskId)) bs (ms.map (payMilestone m.id)) := by
  obtain ⟨htnop, huntouched, hnodup⟩ := invL_pay_common h hm hcomp ht htid
  obtain ⟨h1, h2, h3, h4, h5, h6, h7, h8, h9, h10⟩ := h
  constructor
  · rw [List.map_map]
    have hc : Task.id ∘ progressTask m.taskId = Task.id := funext (progressTask_id m.taskId)
    rw [hc]
    exact h1
  · exact h2
  · exact hnodup
  · intro b hb
    obtain ⟨t, htmem, htid2⟩ := h4 b hb
    exact ⟨progressTask m.taskId t, List.mem_map_of_mem _ htmem,
      by rw [progressTask_id]; exact htid2⟩
  · intro x' hx'
    obtain ⟨x, hxmem, rfl⟩ := List.mem_map.mp hx'
    obtain ⟨t, htmem, htid2⟩ := h5 x hxmem
    exact ⟨progressTask m.taskId t, List.mem_map_of_mem _ htmem,
      by rw [progressTask_id, payMilestone_taskId]; exact htid2⟩
  · intro t' ht' hop b hb hbt
    obtain ⟨t, htmem, rfl⟩ := List.mem_map.mp ht'
    by_cases hteq : t.id = m.taskId
    · rw [progressTask_self hteq] at hop
      exact absurd hop (by simp)
    · rw [progressTask_other hteq] at hop hbt
      exact h6 t htmem hop b hb hbt
  · intro t' ht' hop x' hx' hxt
    obtain ⟨t, htmem, rfl⟩ := List.mem_map.mp ht'
    obtain ⟨x, hxmem, rfl⟩ := List.mem_map.mp hx'
    by_cases hteq : t.id = m.taskId
    · rw [progressTask_self hteq] at hop
      exact absurd hop (by simp)
    · rw [progressTask_other hteq] at hop hxt
      rw [payMilestone_taskId] at hxt
      have hxne : x.taskId ≠ m.taskId := by
        rw [hxt]
        exact hteq
      rw [huntouched x hxmem hxne]
      exact h7 t htmem hop x hxmem hxt
  · intro t' ht' hnop
    obtain ⟨t, htmem, rfl⟩ := List.mem_map.mp ht'
    by_cases hteq : t.id = m.taskId
    · have httask : t = task := nodup_map_inj h1 htmem ht (hteq.trans htid.symm)
      subst httask
      obtain ⟨b, hbmem, hbt, hbacc, hsib⟩ := h8 t htmem htnop
      refine ⟨b, hbmem, ?_, hbacc, ?_⟩
      · rw [progressTask_self hteq]
        exact hbt
      · intro b' hb' hbt' hbid'
        rw [progressTask_self hteq] at hbt'
        exact hsib b' hb' hbt' hbid'
    · rw [progressTask_other hteq] at hnop ⊢
      exact h8 t htmem hnop
  · intro t' ht' hcompl
    obtain ⟨t, htmem, rfl⟩ := List.mem_map.mp ht'
    by_cases hteq : t.id = m.taskId
    · rw [progressTask_self hteq] at hcompl
      exact absurd hcompl (by simp)
    · rw [progressTask_other hteq] at hcompl ⊢
      obtain ⟨x, hxmem, hxt⟩ := h9 t htmem hcompl
      exact ⟨payMilestone m.id x, List.mem_map_of_mem _ hxmem,
        by rw [payMilestone_taskId]; exact hxt⟩
  · intro t' ht' hncomp x' hx' hxt
    obtain ⟨t, htmem, rfl⟩ := List.mem_map.mp ht'
    obtain ⟨x, hxmem, rfl⟩ := List.mem_map.mp hx'
    by_cases hteq : t.id = m.taskId
    · obtain ⟨w, hwmem, hwt, hwp⟩ := hrem
      refine ⟨w, hwmem, ?_, hwp⟩
      rw [progressTask_self hteq, hwt]
      exact hteq.symm
    · rw [progressTask_other hteq] at hncomp hxt ⊢
      rw [payMilestone_taskId] at hxt
      obtain ⟨m2, hm2, hm2t, hm2p⟩ := h10 t htmem hncomp x hxmem hxt
      have hm2ne : m2.taskId ≠ m.taskId := by
        rw [hm2t]
        exact hteq
      refine ⟨payMilestone m.id m2, List.mem_map_of_mem _ hm2, ?_, ?_⟩
      · rw [huntouched m2 hm2 hm2ne]
        exact hm2t
      · rw [huntouched m2 hm2 hm2ne]
        exact hm2p

theorem invL_paySame {ts : List Task} {bs : List Bid} {ms : List Milestone}
    (h : InvL ts bs ms) {m : Milestone} {task : Task}
    (hm : m ∈ ms) (hcomp : m.status = MilestoneStatus.completed)
    (ht : task ∈ ts) (htid : task.id = m.taskId)
    (hrem : ∃ x ∈ ms.map (payMilestone m.id),
      x.taskId = m.taskId ∧ x.status ≠ MilestoneStatus.paid) :
    InvL ts bs (ms.map (payMilestone m.id)) := by
  obtain ⟨htnop, huntouched, hnodup⟩ := invL_pay_common h hm hcomp ht htid
  obtain ⟨h1, h2, h3, h4, h5, h6, h7, h8, h9, h10⟩ := h
  constructor
  · exact h1
  · exact h2
  · exact hnodup
  · exact h4
  · intro x' hx'
    obtain ⟨x, hxmem, rfl⟩ := List.mem_map.mp hx'
    obtain ⟨t, htmem, htid2⟩ := h5 x hxmem
    exact ⟨t, htmem, by rw [payMilestone_taskId]; exact htid2⟩
  · exact h6
  · intro t htmem hop x' hx' hxt
    obtain ⟨x, hxmem, rfl⟩ := List.mem_map.mp hx'
    rw [payMilestone_taskId] at hxt
    have hxne : x.taskId ≠ m.taskId := by
      intro hxeq
      have httask : t = task := by
        refine nodup_map_inj h1 htmem ht ?_
        rw [htid, ← hxeq, hxt]
      rw [httask] at hop
      exact htnop hop
    rw [huntouched x hxmem hxne]
    exact h7 t htmem hop x hxmem hxt
  · exact h8
  · intro t htmem hcompl
    obtain ⟨x, hxmem, hxt⟩ := h9 t htmem hcompl
    exact ⟨payMilestone m.id x, List.mem_map_of_mem _ hxmem,
      by rw [payMilestone_taskId]; exact hxt⟩
  · intro t htmem hncomp x' hx' hxt
    obtain ⟨x, hxmem, rfl⟩ := List.mem_map.mp hx'
    rw [payMilestone_taskId] at hxt
    by_cases hteq : t.id = m.taskId
    · obtain ⟨w, hwmem, hwt, hwp⟩ := hrem
      exact ⟨w, hwmem, by rw [hwt]; exact hteq.symm, hwp⟩
    · obtain ⟨m2, hm2, hm2t, hm2p⟩ := h10 t htmem hncomp x hxmem hxt
      have hm2ne : m2.taskId ≠ m.taskId := by
        rw [hm2t]
        exact hteq
      refine ⟨payMilestone m.id m2, List.mem_map_of_mem _ hm2, ?_, ?_⟩
      · rw [huntouched m2 hm2 hm2ne]
        exact hm2t
      · rw [huntouched m2 hm2 hm2ne]
        exact hm2p

theorem inv_start (users : List User) : Inv ⟨users, [], [], [], [], []⟩ := by
  constructor <;> simp

theorem inv_step {nc : Bool} {db db' : DB} (hs : Step nc db db') (hinv : Inv db) : Inv db' := by
  cases hs with
  | createTask caller title newTaskId hfresh =>
    rcases createTask_fst db caller title newTaskId with heq | ⟨user, _, _, heq⟩
    · rw [heq]
      exact hinv
    · rw [heq]
      exact invL_createTask hinv hfresh
  | submitBid caller taskId amount proposal timeline newBidId notifyOk hfresh =>
    rcases submitBid_fst db caller taskId amount proposal timeline newBidId notifyOk with
      heq | ⟨user, task, _, _, hft, hst, _, notifs, heq⟩
    · rw [heq]
      exact hinv
    · rw [heq]
      obtain ⟨htask, hid⟩ := findTask_some hft
      exact invL_submitBid hinv hfresh htask hid hst
  | acceptBid caller bidId notifyOk =>
    rcases acceptBid_fst db caller bidId notifyOk with
      heq | ⟨clientId, bid, task, _, hfb, hft, _, hst, htasks, hbids, hmils⟩
    · rw [heq]
      exact hinv
    · obtain ⟨hbmem, hbid⟩ := findBid_some hfb
      obtain ⟨htmem, htid⟩ := findTask_some hft
      show InvL _ _ _
      rw [htasks, hbids, hmils, acceptBidTx_tasks, acceptBidTx_bids]
      exact invL_acceptBid hinv hbmem hbid htmem htid hst
  | createMilestone caller taskId title description amount dueDate newMilestoneId notifyOk hfresh hnc =>
    rcases createMilestone_fst db caller taskId title description amount dueDate newMilestoneId notifyOk with
      heq | ⟨user, task, _, _, hft, _, htasks, hbids, hmils⟩
    · rw [heq]
      exact hinv
    · obtain ⟨htmem, htid⟩ := findTask_some hft
      show InvL _ _ _
      rw [htasks, hbids, hmils]
      exact invL_createMilestone hinv hfresh htmem htid
  | requestCompletion caller milestoneId notifyOk =>
    rcases requestCompletion_fst db caller milestoneId notifyOk with
      heq | ⟨user, m, task, ab, rest, _, hfm, hft, hab, _, hpend, htasks, hbids, hmils⟩
    · rw [heq]
      exact hinv
    · obtain ⟨hmmem, hmid⟩ := findMilestone_some hfm
      have habmem : ab ∈ acceptedBids db m.taskId := by
        rw [hab]
        exact List.mem_cons_self ab rest
      obtain ⟨habbs, habt, habacc⟩ := mem_acceptedBids habmem
      show InvL _ _ _
      rw [htasks, hbids, hmils]
      exact invL_requestCompletion hinv hmmem hmid hpend habbs habt habacc
  | releasePayment caller milestoneId notifyOk =>
    rcases releasePayment_fst db caller milestoneId notifyOk with
      heq | ⟨m, task, _, hfm, hft, hcomp, htasks, hbids, hmils⟩
    · rw [heq]
      exact hinv
    · obtain ⟨hmmem, hmid⟩ := findMilestone_some hfm
      obtain ⟨htmem, htid⟩ := findTask_some hft
      show InvL _ _ _
      rw [htasks, hbids, hmils, releasePaymentTx_eq]
      show InvL
        (if _ then db.tasks.map (completeTask m.taskId)
         else if _ then db.tasks.map (progressTask m.taskId) else db.tasks)
        db.bids (db.milestones.map (payMilestone m.id))
      by_cases hrem0 :
          (((db.milestones.map (payMilestone m.id)).filter
            (fun x => x.taskId == m.taskId && x.status != MilestoneStatus.paid)).length == 0) = true
      · rw [if_pos hrem0]
        exact invL_payComplete hinv hmmem hcomp htmem htid
      · have hrem : ∃ x ∈ db.milestones.map (payMilestone m.id),
            x.taskId = m.taskId ∧ x.status ≠ MilestoneStatus.paid := by
          have hlen : ((db.milestones.map (payMilestone m.id)).filter
              (fun x => x.taskId == m.taskId && x.status != MilestoneStatus.paid)).length ≠ 0 := by
            simpa using hrem0
          obtain ⟨x, hx⟩ := List.exists_mem_of_length_pos (Nat.pos_of_ne_zero hlen)
          obtain ⟨hxmem, hxp⟩ := List.mem_filter.mp hx
          simp only [Bool.and_eq_true, beq_iff_eq, bne_iff_ne] at hxp
          exact ⟨x, hxmem, hxp.1, hxp.2⟩
        rw [if_neg hrem0]
        by_cases hassigned : (task.status == TaskStatus.assigned) = true
        · rw [if_pos hassigned]
          exact invL_payProgress hinv hmmem hcomp htmem htid hrem
        · rw [if_neg hassigned]
          exact invL_paySame hinv hmmem hcomp htmem htid hrem

theorem inv_reachable {nc : Bool} {users : List User} {db : DB}
    (h : Reachable nc users db) : Inv db := by
  induction h with
  | init => exact inv_start users
  | step _ hs ih => exact inv_step hs ih

/-- The rollup direction of the task-completion law: every milestone of a
`completed` task is `paid`.  This holds for the system in which
createMilestone is never invoked on a `completed` task. -/
def CompletedPaid (db : DB) : Prop :=
  ∀ t ∈ db.tasks, t.status = TaskStatus.completed →
    ∀ m ∈ db.milestones, m.taskId = t.id → m.status = MilestoneStatus.paid

theorem completedPaid_step {db db' : DB} (hs : Step true db db') (hinv : Inv db)
    (hcp : CompletedPaid db) : CompletedPaid db' := by
  obtain ⟨h1, h2, h3, h4, h5, h6, h7, h8, h9, h10⟩ := hinv
  cases hs with
  | createTask caller title newTaskId hfresh =>
    rcases createTask_fst db caller title newTaskId with heq | ⟨user, _, _, heq⟩
    · rw [heq]
      exact hcp
    · rw [heq]
      intro t ht hcomp m hm hmt
      rcases List.mem_append.mp ht with ht0 | ht0
      · exact hcp t ht0 hcomp m hm hmt
      · obtain rfl : t = ⟨newTaskId, user.id, title, TaskStatus.open_⟩ := by simpa using ht0
        exact absurd hcomp (by simp)
  | submitBid caller taskId amount proposal timeline newBidId notifyOk hfresh =>
    rcases submitBid_fst db caller taskId amount proposal timeline newBidId notifyOk with
      heq | ⟨user, task, _, _, hft, hst, _, notifs, heq⟩
    · rw [heq]
      exact hcp
    · rw [heq]
      exact hcp
  | acceptBid caller bidId notifyOk =>
    rcases acceptBid_fst db caller bidId notifyOk with
      heq | ⟨clientId, bid, task, _, hfb, hft, _, hst, htasks, hbids, hmils⟩
    · rw [heq]
      exact hcp
    · intro t' ht' hcomp m hm hmt
      rw [htasks, acceptBidTx_tasks] at ht'
      rw [hmils] at hm
      obtain ⟨t, htmem, rfl⟩ := List.mem_map.mp ht'
      by_cases hteq : t.id = bid.taskId
      · rw [assignTask_self hteq] at hcomp
        exact absurd hcomp (by simp)
      · rw [assignTask_other hteq] at hcomp hmt
        exact hcp t htmem hcomp m hm hmt
  | createMilestone caller taskId title description amount dueDate newMilestoneId notifyOk hfresh hnc =>
    rcases createMilestone_fst db caller taskId title description amount dueDate newMilestoneId notifyOk with
      heq | ⟨user, task, _, _, hft, _, htasks, hbids, hmils⟩
    · rw [heq]
      exact hcp
    · intro t ht hcomp m hm hmt
      rw [htasks] at ht
      rw [hmils] at hm
      rcases List.mem_append.mp hm with hm0 | hm0
      · exact hcp t ht hcomp m hm0 hmt
      · obtain rfl : m =
            ⟨newMilestoneId, taskId, title, description, amount, dueDate, MilestoneStatus.pending⟩ := by
          simpa using hm0
        exact absurd hcomp (hnc rfl t ht hmt.symm)
  | requestCompletion caller milestoneId notifyOk =>
    rcases requestCompletion_fst db caller milestoneId notifyOk with
      heq | ⟨user, m, task, ab, rest, _, hfm, hft, hab, _, hpend, htasks, hbids, hmils⟩
    · rw [heq]
      exact hcp
    · obtain ⟨hmmem, hmid⟩ := findMilestone_some hfm
      intro t ht hcomp x' hx' hxt
      rw [htasks] at ht
      rw [hmils] at hx'
      obtain ⟨x, hxmem, rfl⟩ := List.mem_map.mp hx'
      rw [completeMilestone_taskId] at hxt
      have hpaid := hcp t ht hcomp x hxmem hxt
      by_cases hxeq : x.id = milestoneId
      · exfalso
        have hxm : x = m := nodup_map_inj h3 hxmem hmmem (hxeq.trans hmid.symm)
        rw [hxm, hpend] at hpaid
        exact absurd hpaid (by simp)
      · rw [completeMilestone_other hxeq]
        exact hpaid
  | releasePayment caller milestoneId notifyOk =>
    rcases releasePayment_fst db caller milestoneId notifyOk with
      heq | ⟨m, task, _, hfm, hft, hcompstat, htasks, hbids, hmils⟩
    · rw [heq]
      exact hcp
    · obtain ⟨hmmem, hmid⟩ := findMilestone_some hfm
      obtain ⟨htmem, htid⟩ := findTask_some hft
      have huntouched : ∀ x ∈ db.milestones, x.taskId ≠ m.taskId → payMilestone m.id x = x := by
        intro x hxmem hne
        refine payMilestone_other ?_
        intro hid
        exact hne (by rw [nodup_map_inj h3 hxmem hmmem hid])
      intro t' ht' hcomp x' hx' hxt
      rw [htasks, releasePaymentTx_eq] at ht'
      rw [hmils, releasePaymentTx_eq] at hx'
      dsimp only at ht' hx'
      obtain ⟨x, hxmem, rfl⟩ := List.mem_map.mp hx'
      rw [payMilestone_taskId] at hxt
      by_cases hrem0 :
          (((db.milestones.map (payMilestone m.id)).filter
            (fun y => y.taskId == m.taskId && y.status != MilestoneStatus.paid)).length == 0) = true
      · rw [if_pos hrem0] at ht'
        obtain ⟨t, htmem2, rfl⟩ := List.mem_map.mp ht'
        by_cases hteq : t.id = m.taskId
        · -- every milestone of this task is paid because the remaining count is zero
          rw [completeTask_self hteq] at hxt
          have hfilnil : ((db.milestones.map (payMilestone m.id)).filter
              (fun y => y.taskId == m.taskId && y.status != MilestoneStatus.paid)) = [] := by
            rw [← List.length_eq_zero]
            simpa using hrem0
          have hnotin := List.filter_eq_nil_iff.mp hfilnil (payMilestone m.id x)
            (List.mem_map_of_mem _ hxmem)
          simp only [Bool.and_eq_true, beq_iff_eq, bne_iff_ne, not_and, not_not] at hnotin
          exact hnotin (by rw [payMilestone_taskId, hxt, hteq])
        · rw [completeTask_other hteq] at hcomp hxt
          have hxne : x.taskId ≠ m.taskId := by
            rw [hxt]
            exact hteq
          rw [huntouched x hxmem hxne]
          exact hcp t htmem2 hcomp x hxmem hxt
      · rw [if_neg hrem0] at ht'
        by_cases hassigned : (task.status == TaskStatus.assigned) = true
        · rw [if_pos hassigned] at ht'
          obtain ⟨t, htmem2, rfl⟩ := List.mem_map.mp ht'
          by_cases hteq : t.id = m.taskId
          · rw [progressTask_self hteq] at hcomp
            exact absurd hcomp (by simp)
          · rw [progressTask_other hteq] at hcomp hxt
            have hxne : x.taskId ≠ m.taskId := by
              rw [hxt]
              exact hteq
            rw [huntouched x hxmem hxne]
            exact hcp t htmem2 hcomp x hxmem hxt
        · rw [if_neg hassigned] at ht'
          by_cases hteq : t'.id = m.taskId
          · exfalso
            have httask : t' = task := nodup_map_inj h1 ht' htmem (hteq.trans htid.symm)
            have := hcp t' ht' hcomp m hmmem hteq.symm
            rw [hcompstat] at this
            exact absurd this (by simp)
          · have hxne : x.taskId ≠ m.taskId := by
              rw [hxt]
              exact hteq
            rw [huntouched x hxmem hxne]
            exact hcp t' ht' hcomp x hxmem hxt

theorem completedPaid_reachable {users : List User} {db : DB}
    (h : Reachable true users db) : CompletedPaid db := by
  induction h with
  | init =>
    intro t ht
    simp at ht
  | step hr hs ih => exact completedPaid_step hs (inv_reachable hr) ih

/-- The post-state of a successful acceptBid, phrased row by row as the spec
describes it: the target bid `accepted`, every other bid of the same task
`rejected`, the task `assigned`, and no other table of the transaction
touched (notifications are a post-transaction side effect). -/
def AcceptBidSpec (db : DB) (clientId bidId : String) (b : Bid) : Prop :=
  ∃ db', acceptBid db (some clientId) bidId true =
      (db', Resp.success "Bid accepted and freelancer hired successfully.") ∧
    db'.bids = db.bids.map (fun x =>
      if x.id = bidId then { x with status := BidStatus.accepted }
      else if x.taskId = b.taskId then { x with status := BidStatus.rejected }
      else x) ∧
    db'.tasks = db.tasks.map (fun t =>
      if t.id = b.taskId then { t with status := TaskStatus.assigned } else t) ∧
    db'.milestones = db.milestones ∧ db'.messages = db.messages ∧ db'.users = db.users

/-- C1: on a bid of an open task owned by the caller, acceptBid commits
exactly the three-row transaction (target bid accepted, siblings rejected,
task assigned); a missing bid fails NotFound, a foreign task fails
Forbidden, a non-open task fails InvalidState, each with no state change. -/
theorem C1_acceptBid (db : DB) (clientId bidId : String) (notifyOk : Bool) :
    (findBid db bidId = none →
      acceptBid db (some clientId) bidId notifyOk =
        (db, Resp.failure ErrKind.NotFound "Bid not found.")) ∧
    (∀ b, findBid db bidId = some b → ∀ task, findTask db b.taskId = some task →
      ∀ fr, findUser db b.freelancerId = some fr →
      (task.clientId ≠ clientId →
        acceptBid db (some clientId) bidId notifyOk =
          (db, Resp.failure ErrKind.Forbidden
            "You are not authorized to accept bids for this task.")) ∧
      (task.clientId = clientId → task.status ≠ TaskStatus.open_ →
        acceptBid db (some clientId) bidId notifyOk =
          (db, Resp.failure ErrKind.InvalidState "This task is not open for bidding.")) ∧
      (task.clientId = clientId → task.status = TaskStatus.open_ →
        AcceptBidSpec db clientId bidId b)) := by
  constructor
  · intro hnone
    simp [acceptBid, hnone]
  · intro b hfb task hft fr hfu
    refine ⟨?_, ?_, ?_⟩
    · intro hne
      simp [acceptBid, hfb, hft, hfu, hne]
    · intro hcl hnop
      simp [acceptBid, hfb, hft, hfu, hcl, hnop]
    · intro hcl hop
      refine ⟨{ acceptBidTx db bidId b.taskId with
          notifications := (acceptBidTx db bidId b.taskId).notifications ++
            [⟨b.freelancerId,
              "Congratulations! Your bid for \"" ++ task.title ++ "\" has been accepted."⟩,
             ⟨clientId,
              "You have hired " ++ fr.firstName ++ " for your project \"" ++ task.title ++ "\"."⟩] },
        ?_, ?_, ?_, rfl, rfl, rfl⟩
      · simp [acceptBid, hfb, hft, hfu, hcl, hop, acceptBidTx]
      · show (acceptBidTx db bidId b.taskId).bids = _
        rw [acceptBidTx_bids]
        apply List.map_congr_left
        intro x _
        by_cases h1 : x.id = bidId
        · simp [acceptUpdate, h1]
        · by_cases h2 : x.taskId = b.taskId
          · simp [acceptUpdate, h1, h2]
          · simp [acceptUpdate, h1, h2]
      · show (acceptBidTx db bidId b.taskId).tasks = _
        rw [acceptBidTx_tasks]
        apply List.map_congr_left
        intro t _
        by_cases h1 : t.id = b.taskId
        · simp [assignTask, h1]
        · simp [assignTask, h1]

/-- A client, two freelancers, one open task with two pending bids. -/
def exDbC1 : DB :=
  { users := [⟨"c", "c@example.com", "Cleo", "Client", UserRole.client⟩,
              ⟨"f", "f@example.com", "Fred", "Lancer", UserRole.freelancer⟩,
              ⟨"g", "g@example.com", "Gina", "Lancer", UserRole.freelancer⟩],
    tasks := [⟨"t1", "c", "Build a site", TaskStatus.open_⟩],
    bids := [⟨"b1", "t1", "f", 100, "first proposal", "2 weeks", BidStatus.pending⟩,
             ⟨"b2", "t1", "g", 150, "second proposal", "1 week", BidStatus.pending⟩],
    milestones := [], messages := [], notifications := [] }

theorem C1_acceptBid_witness :
    AcceptBidSpec exDbC1 "c" "b1" ⟨"b1", "t1", "f", 100, "first proposal", "2 weeks", BidStatus.pending⟩ :=
  ((C1_acceptBid exDbC1 "c" "b1" true).2
    ⟨"b1", "t1", "f", 100, "first proposal", "2 weeks", BidStatus.pending⟩ (by decide)
    ⟨"t1", "c", "Build a site", TaskStatus.open_⟩ (by decide)
    ⟨"f", "f@example.com", "Fred", "Lancer", UserRole.freelancer⟩ (by decide)).2.2 rfl rfl

/-- `tx.milestone.count({where: {taskId, status: {not: paid}}})` over a
milestone table. -/
def remainingUnpaid (ms : List Milestone) (taskId : String) : Nat :=
  (ms.filter (fun x => x.taskId == taskId && x.status != MilestoneStatus.paid)).length

/-- C3: releasePayment on a completed milestone whose task belongs to the
caller marks exactly that milestone paid; then, with the count of the
task's milestones still unpaid taken after the update: count 0 completes
the task, otherwise an `assigned` task moves to `in_progress` and any
other status is untouched; bids, users and messages never change. -/
theorem C3_releasePayment (db : DB) (milestoneId : String) (notifyOk : Bool)
    (m : Milestone) (task : Task)
    (hfm : findMilestone db milestoneId = some m)
    (hft : findTask db m.taskId = some task)
    (hcomp : m.status = MilestoneStatus.completed) :
    ((releasePayment db (some task.clientId) milestoneId notifyOk).1.milestones =
      db.milestones.map (fun x =>
        if x.id = m.id then { x with status := MilestoneStatus.paid } else x)) ∧
    (remainingUnpaid (db.milestones.map (payMilestone m.id)) m.taskId = 0 →
      (releasePayment db (some task.clientId) milestoneId notifyOk).1.tasks =
        db.tasks.map (fun t =>
          if t.id = m.taskId then { t with status := TaskStatus.completed } else t)) ∧
    (remainingUnpaid (db.milestones.map (payMilestone m.id)) m.taskId ≠ 0 →
      task.status = TaskStatus.assigned →
      (releasePayment db (some task.clientId) milestoneId notifyOk).1.tasks =
        db.tasks.map (fun t =>
          if t.id = m.taskId then { t with status := TaskStatus.in_progress } else t)) ∧
    (remainingUnpaid (db.milestones.map (payMilestone m.id)) m.taskId ≠ 0 →
      task.status ≠ TaskStatus.assigned →
      (releasePayment db (some task.clientId) milestoneId notifyOk).1.tasks = db.tasks) ∧
    (releasePayment db (some task.clientId) milestoneId notifyOk).1.bids = db.bids ∧
    (releasePayment db (some task.clientId) milestoneId notifyOk).1.users = db.users ∧
    (releasePayment db (some task.clientId) milestoneId notifyOk).1.messages = db.messages := by
  have hbase :
      (releasePayment db (some task.clientId) milestoneId notifyOk).1.milestones =
        (releasePaymentTx db m task.status).milestones ∧
      (releasePayment db (some task.clientId) milestoneId notifyOk).1.tasks =
        (releasePaymentTx db m task.status).tasks ∧
      (releasePayment db (some task.clientId) milestoneId notifyOk).1.bids = db.bids ∧
      (releasePayment db (some task.clientId) milestoneId notifyOk).1.users = db.users ∧
      (releasePayment db (some task.clientId) milestoneId notifyOk).1.messages = db.messages := by
    rcases hab : acceptedBids db m.taskId with _ | ⟨ab, rest⟩ <;> cases notifyOk <;>
      simp [releasePayment, hfm, hft, hcomp, hab, releasePaymentTx]
  obtain ⟨hmil, htask, hbids, husers, hmsgs⟩ := hbase
  refine ⟨?_, ?_, ?_, ?_, hbids, husers, hmsgs⟩
  · rw [hmil, releasePaymentTx_eq]
    show db.milestones.map (payMilestone m.id) = _
    apply List.map_congr_left
    intro x _
    by_cases h1 : x.id = m.id
    · simp [payMilestone, h1]
    · simp [payMilestone, h1]
  · intro hrem
    rw [htask, releasePaymentTx_eq]
    show (if _ then db.tasks.map (completeTask m.taskId)
          else if _ then db.tasks.map (progressTask m.taskId) else db.tasks) = _
    rw [if_pos (by simpa [remainingUnpaid] using hrem)]
    apply List.map_congr_left
    intro t _
    by_cases h1 : t.id = m.taskId
    · simp [completeTask, h1]
    · simp [completeTask, h1]
  · intro hrem hassigned
    rw [htask, releasePaymentTx_eq]
    show (if _ then db.tasks.map (completeTask m.taskId)
          else if _ then db.tasks.map (progressTask m.taskId) else db.tasks) = _
    rw [if_neg (by simpa [remainingUnpaid] using hrem), if_pos (by simpa using hassigned)]
    apply List.map_congr_left
    intro t _
    by_cases h1 : t.id = m.taskId
    · simp [progressTask, h1]
    · simp [progressTask, h1]
  · intro hrem hnassigned
    rw [htask, releasePaymentTx_eq]
    show (if _ then db.tasks.map (completeTask m.taskId)
          else if _ then db.tasks.map (progressTask m.taskId) else db.tasks) = _
    rw [if_neg (by simpa [remainingUnpaid] using hrem), if_neg (by simpa using hnassigned)]

/-- A hired marketplace: task assigned to freelancer `f` via accepted bid
`b1`, with one completed milestone `m1` and one pending milestone `m2`. -/
def exDbC3 : DB :=
  { users := [⟨"c", "c@example.com", "Cleo", "Client", UserRole.client⟩,
              ⟨"f", "f@example.com", "Fred", "Lancer", UserRole.freelancer⟩],
    tasks := [⟨"t1", "c", "Build a site", TaskStatus.assigned⟩],
    bids := [⟨"b1", "t1", "f", 100, "first proposal", "2 weeks", BidStatus.accepted⟩],
    milestones := [⟨"m1", "t1", "Design", "design the site", 50, 0, MilestoneStatus.completed⟩,
                   ⟨"m2", "t1", "Build", "build the site", 50, 1, MilestoneStatus.pending⟩],
    messages := [], notifications := [] }

theorem C3_releasePayment_witness :
    (releasePayment exDbC3 (some "c") "m1" true).1.milestones =
      exDbC3.milestones.map (fun x =>
        if x.id = "m1" then { x with status := MilestoneStatus.paid } else x) ∧
    (releasePayment exDbC3 (some "c") "m1" true).1.tasks =
      exDbC3.tasks.map (fun t =>
        if t.id = "t1" then { t with status := TaskStatus.in_progress } else t) := by
  have h := C3_releasePayment exDbC3 "m1" true
    ⟨"m1", "t1", "Design", "design the site", 50, 0, MilestoneStatus.completed⟩
    ⟨"t1", "c", "Build a site", TaskStatus.assigned⟩ (by decide) (by decide) (by decide)
  exact ⟨h.1, h.2.2.1 (by decide) (by decide)⟩

/-- C5: milestone status only moves pending → completed → paid.
requestCompletion by the assigned freelancer on a non-pending milestone
fails InvalidState with a message naming the current status and changes
nothing; releasePayment by the task's client on a non-completed milestone
fails InvalidState and changes nothing; and a successful requestCompletion
(resp. releasePayment) starts from pending (resp. completed) and ends at
completed (resp. paid). -/
theorem C5_milestone_progression (db : DB) (milestoneId : String) (notifyOk : Bool)
    (user : JwtPayload) (m : Milestone) (task : Task) (ab : Bid) (rest : List Bid)
    (hfm : findMilestone db milestoneId = some m)
    (hft : findTask db m.taskId = some task)
    (hab : acceptedBids db m.taskId = ab :: rest) :
    (ab.freelancerId = user.id → m.status ≠ MilestoneStatus.pending →
      requestCompletion db (some user) milestoneId notifyOk =
        (db, Resp.failure ErrKind.InvalidState
          ("Milestone is already " ++ m.status.text ++ "."))) ∧
    (m.status ≠ MilestoneStatus.completed →
      releasePayment db (some task.clientId) milestoneId notifyOk =
        (db, Resp.failure ErrKind.InvalidState
          "This milestone must be marked as complete before releasing payment.")) ∧
    ((∃ msg, (requestCompletion db (some user) milestoneId notifyOk).2 = Resp.success msg) →
      m.status = MilestoneStatus.pending ∧
        ∀ x ∈ (requestCompletion db (some user) milestoneId notifyOk).1.milestones,
          x.id = m.id → x.status = MilestoneStatus.completed) ∧
    ((∃ msg, (releasePayment db (some task.clientId) milestoneId notifyOk).2 = Resp.success msg) →
      m.status = MilestoneStatus.completed ∧
        ∀ x ∈ (releasePayment db (some task.clientId) milestoneId notifyOk).1.milestones,
          x.id = m.id → x.status = MilestoneStatus.paid) := by
  obtain ⟨hmmem, hmid⟩ := findMilestone_some hfm
  refine ⟨?_, ?_, ?_, ?_⟩
  · intro hfr hnp
    simp [requestCompletion, hfm, hft, hab, hfr, hnp]
  · intro hnc
    simp [releasePayment, hfm, hft, hnc]
  · rintro ⟨msg, hsucc⟩
    by_cases hfr : ab.freelancerId = user.id
    · by_cases hp : m.status = MilestoneStatus.pending
      · refine ⟨hp, ?_⟩
        have hmils : (requestCompletion db (some user) milestoneId notifyOk).1.milestones =
            db.milestones.map (completeMilestone milestoneId) := by
          cases notifyOk <;> simp [requestCompletion, hfm, hft, hab, hfr, hp, completeMilestone]
        intro x hx hxid
        rw [hmils] at hx
        obtain ⟨x0, hx0mem, rfl⟩ := List.mem_map.mp hx
        have hx0id : x0.id = milestoneId := by
          rw [← hmid]
          rw [completeMilestone_id] at hxid
          exact hxid
        rw [completeMilestone_self hx0id]
      · exfalso
        rw [show (requestCompletion db (some user) milestoneId notifyOk).2 =
            Resp.failure ErrKind.InvalidState ("Milestone is already " ++ m.status.text ++ ".") from by
          simp [requestCompletion, hfm, hft, hab, hfr, hp]] at hsucc
        exact Resp.noConfusion hsucc
    · exfalso
      rw [show (requestCompletion db (some user) milestoneId notifyOk).2 =
          Resp.failure ErrKind.Forbidden "You are not authorized to modify this milestone." from by
        simp [requestCompletion, hfm, hft, hab, hfr]] at hsucc
      exact Resp.noConfusion hsucc
  · rintro ⟨msg, hsucc⟩
    by_cases hc : m.status = MilestoneStatus.completed
    · refine ⟨hc, ?_⟩
      have hmils : (releasePayment db (some task.clientId) milestoneId notifyOk).1.milestones =
          (releasePaymentTx db m task.status).milestones := by
        rcases hab2 : acceptedBids db m.taskId with _ | ⟨ab2, rest2⟩ <;> cases notifyOk <;>
          simp [releasePayment, hfm, hft, hc, hab2, releasePaymentTx]
      intro x hx hxid
      rw [hmils, releasePaymentTx_eq] at hx
      dsimp only at hx
      obtain ⟨x0, hx0mem, rfl⟩ := List.mem_map.mp hx
      have hx0id : x0.id = m.id := by
        rw [payMilestone_id] at hxid
        exact hxid
      rw [payMilestone_self hx0id]
    · exfalso
      rw [show (releasePayment db (some task.clientId) milestoneId notifyOk).2 =
          Resp.failure ErrKind.InvalidState
            "This milestone must be marked as complete before releasing payment." from by
        simp [releasePayment, hfm, hft, hc]] at hsucc
      exact Resp.noConfusion hsucc

/-- The marketplace of `exDbC3` after `m1` was paid: used to exercise both
InvalidState branches (a paid milestone can be neither re-completed nor
re-paid). -/
def exDbC5 : DB :=
  { exDbC3 with
    milestones := [⟨"m1", "t1", "Design", "design the site", 50, 0, MilestoneStatus.paid⟩,
                   ⟨"m2", "t1", "Build", "build the site", 50, 1, MilestoneStatus.pending⟩] }

theorem C5_milestone_progression_witness :
    requestCompletion exDbC5 (some ⟨"f", "f@example.com", UserRole.freelancer⟩) "m1" true =
      (exDbC5, Resp.failure ErrKind.InvalidState "Milestone is already paid.") ∧
    releasePayment exDbC5 (some "c") "m1" true =
      (exDbC5, Resp.failure ErrKind.InvalidState
        "This milestone must be marked as complete before releasing payment.") := by
  have h := C5_milestone_progression exDbC5 "m1" true
    ⟨"f", "f@example.com", UserRole.freelancer⟩
    ⟨"m1", "t1", "Design", "design the site", 50, 0, MilestoneStatus.paid⟩
    ⟨"t1", "c", "Build a site", TaskStatus.assigned⟩
    ⟨"b1", "t1", "f", 100, "first proposal", "2 weeks", BidStatus.accepted⟩ []
    (by decide) (by decide) (by decide)
  exact ⟨h.1 (by decide) (by decide), h.2.1 (by decide)⟩

/-- C6: submitBid fails with exactly the right kind for the first violated
precondition — Forbidden (caller not a freelancer), NotFound (no task),
InvalidState (task not open), InvalidState (own task), Conflict (duplicate
bid) — and on success appends one pending bid, mutating no task. -/
theorem C6_submitBid (db : DB) (user : JwtPayload) (taskId : String) (amount : Nat)
    (proposal timeline newBidId : String) (notifyOk : Bool) :
    (user.role ≠ UserRole.freelancer →
      submitBid db (some user) taskId amount proposal timeline newBidId notifyOk =
        (db, Resp.failure ErrKind.Forbidden "Only freelancers can submit bids.")) ∧
    (user.role = UserRole.freelancer → findTask db taskId = none →
      submitBid db (some user) taskId amount proposal timeline newBidId notifyOk =
        (db, Resp.failure ErrKind.NotFound "Task not found.")) ∧
    (∀ task, user.role = UserRole.freelancer → findTask db taskId = some task →
      task.status ≠ TaskStatus.open_ →
      submitBid db (some user) taskId amount proposal timeline newBidId notifyOk =
        (db, Resp.failure ErrKind.InvalidState "This task is no longer open for bidding.")) ∧
    (∀ task, user.role = UserRole.freelancer → findTask db taskId = some task →
      task.status = TaskStatus.open_ → task.clientId = user.id →
      submitBid db (some user) taskId amount proposal timeline newBidId notifyOk =
        (db, Resp.failure ErrKind.InvalidState "You cannot bid on your own task.")) ∧
    (∀ task, user.role = UserRole.freelancer → findTask db taskId = some task →
      task.status = TaskStatus.open_ → task.clientId ≠ user.id →
      (∃ b0 ∈ db.bids, b0.taskId = taskId ∧ b0.freelancerId = user.id) →
      submitBid db (some user) taskId amount proposal timeline newBidId notifyOk =
        (db, Resp.failure ErrKind.Conflict "You have already submitted a bid for this task.")) ∧
    (∀ task, user.role = UserRole.freelancer → findTask db taskId = some task →
      task.status = TaskStatus.open_ → task.clientId ≠ user.id →
      (∀ b0 ∈ db.bids, ¬(b0.taskId = taskId ∧ b0.freelancerId = user.id)) →
      (submitBid db (some user) taskId amount proposal timeline newBidId notifyOk).1.bids =
        db.bids ++ [⟨newBidId, taskId, user.id, amount, proposal, timeline, BidStatus.pending⟩] ∧
      (submitBid db (some user) taskId amount proposal timeline newBidId notifyOk).1.tasks =
        db.tasks ∧
      (submitBid db (some user) taskId amount proposal timeline newBidId notifyOk).1.milestones =
        db.milestones ∧
      (submitBid db (some user) taskId amount proposal timeline newBidId notifyOk).1.users =
        db.users ∧
      (submitBid db (some user) taskId amount proposal timeline newBidId notifyOk).1.messages =
        db.messages ∧
      (notifyOk = true →
        (submitBid db (some user) taskId amount proposal timeline newBidId notifyOk).2 =
          Resp.success "Bid submitted successfully")) := by
  refine ⟨?_, ?_, ?_, ?_, ?_, ?_⟩
  · intro hrole
    simp [submitBid, hrole]
  · intro hrole hnone
    simp [submitBid, hrole, hnone]
  · intro task hrole hft hnop
    simp [submitBid, hrole, hft, hnop]
  · intro task hrole hft hop hown
    simp [submitBid, hrole, hft, hop, hown]
  · intro task hrole hft hop hown hdup
    obtain ⟨b0, hb0mem, hb0t, hb0f⟩ := hdup
    have hfindne : db.bids.find? (fun b => b.taskId == taskId && b.freelancerId == user.id) ≠ none := by
      rw [ne_eq, List.find?_eq_none]
      push_neg
      exact ⟨b0, hb0mem, by simp [hb0t, hb0f]⟩
    obtain ⟨bdup, hbdup⟩ := Option.ne_none_iff_exists'.mp hfindne
    simp [submitBid, hrole, hft, hop, hown, hbdup]
  · intro task hrole hft hop hown hnodup
    have hfind : db.bids.find? (fun b => b.taskId == taskId && b.freelancerId == user.id) = none := by
      rw [List.find?_eq_none]
      intro b hb
      have := hnodup b hb
      simp only [not_and] at this
      simp only [Bool.and_eq_true, beq_iff_eq, not_and]
      intro h1
      exact this h1
    refine ⟨?_, ?_, ?_, ?_, ?_, ?_⟩ <;>
      cases notifyOk <;> simp [submitBid, hrole, hft, hop, hown, hfind]

/-- Freelancer `g` already has a pending bid on `t1`; `f` has none. -/
def exDbC6 : DB :=
  { users := [⟨"c", "c@example.com", "Cleo", "Client", UserRole.client⟩,
              ⟨"f", "f@example.com", "Fred", "Lancer", UserRole.freelancer⟩,
              ⟨"g", "g@example.com", "Gina", "Lancer", UserRole.freelancer⟩],
    tasks := [⟨"t1", "c", "Build a site", TaskStatus.open_⟩],
    bids := [⟨"b2", "t1", "g", 150, "second proposal", "1 week", BidStatus.pending⟩],
    milestones := [], messages := [], notifications := [] }

theorem C6_submitBid_witness :
    submitBid exDbC6 (some ⟨"g", "g@example.com", UserRole.freelancer⟩)
        "t1" 120 "another proposal here" "3 weeks" "b3" true =
      (exDbC6, Resp.failure ErrKind.Conflict "You have already submitted a bid for this task.") ∧
    (submitBid exDbC6 (some ⟨"f", "f@example.com", UserRole.freelancer⟩)
        "t1" 99 "a thirty character proposal ok" "4 weeks" "b4" true).1.bids =
      exDbC6.bids ++ [⟨"b4", "t1", "f", 99, "a thirty character proposal ok", "4 weeks", BidStatus.pending⟩] := by
  constructor
  · exact (C6_submitBid exDbC6 ⟨"g", "g@example.com", UserRole.freelancer⟩
      "t1" 120 "another proposal here" "3 weeks" "b3" true).2.2.2.2.1
      ⟨"t1", "c", "Build a site", TaskStatus.open_⟩ rfl (by decide) (by decide) (by decide)
      ⟨⟨"b2", "t1", "g", 150, "second proposal", "1 week", BidStatus.pending⟩,
        by decide, by decide, by decide⟩
  · exact ((C6_submitBid exDbC6 ⟨"f", "f@example.com", UserRole.freelancer⟩
      "t1" 99 "a thirty character proposal ok" "4 weeks" "b4" true).2.2.2.2.2
      ⟨"t1", "c", "Build a site", TaskStatus.open_⟩ rfl (by decide) (by decide) (by decide)
      (by decide)).1

/-- Registered users of the walkthrough scenario. -/
def exUsers : List User :=
  [⟨"c", "c@example.com", "Cleo", "Client", UserRole.client⟩,
   ⟨"f", "f@example.com", "Fred", "Lancer", UserRole.freelancer⟩]

/-- The client's JWT. -/
def cJwt : JwtPayload := ⟨"c", "c@example.com", UserRole.client⟩

/-- The freelancer's JWT. -/
def fJwt : JwtPayload := ⟨"f", "f@example.com", UserRole.freelancer⟩

/-- The walkthrough scenario, one handler call at a time. -/
def exStep0 : DB := ⟨exUsers, [], [], [], [], []⟩

def exStep1 : DB := (createTask exStep0 (some cJwt) "Build a site" "t1").1

def exStep2 : DB := (submitBid exStep1 (some fJwt) "t1" 100 "a fine proposal" "2 weeks" "b1" true).1

def exStep3 : DB := (acceptBid exStep2 (some "c") "b1" true).1

def exStep4 : DB := (createMilestone exStep3 (some cJwt) "t1" "Design" "design the site" 50 0 "m1" true).1

def exStep5 : DB := (requestCompletion exStep4 (some fJwt) "m1" true).1

def exStep6 : DB := (releasePayment exStep5 (some "c") "m1" true).1

/-- After paying the only milestone the task is completed; this step creates
a fresh (pending) milestone on the completed task, which the unrestricted
system permits. -/
def exStep7 : DB := (createMilestone exStep6 (some cJwt) "t1" "Extra" "extra work" 25 1 "m2" true).1

theorem reachable_exStep6 (nc : Bool) : Reachable nc exUsers exStep6 :=
  Reachable.step
    (Reachable.step
      (Reachable.step
        (Reachable.step
          (Reachable.step
            (Reachable.step Reachable.init
              (Step.createTask exStep0 (some cJwt) "Build a site" "t1" (by decide)))
            (Step.submitBid exStep1 (some fJwt) "t1" 100 "a fine proposal" "2 weeks" "b1" true
              (by decide)))
          (Step.acceptBid exStep2 (some "c") "b1" true))
        (Step.createMilestone exStep3 (some cJwt) "t1" "Design" "design the site" 50 0 "m1" true
          (by decide) (by intro hnc; decide)))
      (Step.requestCompletion exStep4 (some fJwt) "m1" true))
    (Step.releasePayment exStep5 (some "c") "m1" true)

theorem reachable_exStep7 : Reachable false exUsers exStep7 :=
  Reachable.step (reachable_exStep6 false)
    (Step.createMilestone exStep6 (some cJwt) "t1" "Extra" "extra work" 25 1 "m2" true
      (by decide) (by intro hfalse; exact absurd hfalse (by decide)))

/-- C2: in every reachable state, each task has at most one accepted bid; a
task that is assigned, in progress or completed has exactly one accepted
bid, and every sibling is rejected or withdrawn — never pending; and
acceptBid on a bid of a task that is no longer open fails InvalidState. -/
theorem C2_single_accepted_bid {db : DB} {users : List User}
    (hreach : Reachable false users db) :
    (∀ t ∈ db.tasks, ∀ b1 ∈ db.bids, ∀ b2 ∈ db.bids,
      b1.taskId = t.id → b2.taskId = t.id →
      b1.status = BidStatus.accepted → b2.status = BidStatus.accepted → b1 = b2) ∧
    (∀ t ∈ db.tasks,
      (t.status = TaskStatus.assigned ∨ t.status = TaskStatus.in_progress ∨
        t.status = TaskStatus.completed) →
      ∃ b ∈ db.bids, b.taskId = t.id ∧ b.status = BidStatus.accepted ∧
        ∀ b' ∈ db.bids, b'.taskId = t.id → b' ≠ b →
          (b'.status = BidStatus.rejected ∨ b'.status = BidStatus.withdrawn) ∧
          b'.status ≠ BidStatus.pending) ∧
    (∀ bidId b task fr caller notifyOk, findBid db bidId = some b →
      findTask db b.taskId = some task → findUser db b.freelancerId = some fr →
      task.clientId = caller → task.status ≠ TaskStatus.open_ →
      acceptBid db (some caller) bidId notifyOk =
        (db, Resp.failure ErrKind.InvalidState "This task is not open for bidding.")) := by
  obtain ⟨h1, h2, h3, h4, h5, h6, h7, h8, h9, h10⟩ := inv_reachable hreach
  refine ⟨?_, ?_, ?_⟩
  · intro t htmem b1 hb1 b2 hb2 hb1t hb2t hb1acc hb2acc
    by_cases hop : t.status = TaskStatus.open_
    · exfalso
      have := h6 t htmem hop b1 hb1 hb1t
      rw [hb1acc] at this
      exact absurd this (by simp)
    · obtain ⟨b, hb, hbt, hbacc, hsib⟩ := h8 t htmem hop
      have e1 : b1.id = b.id := by
        by_contra hne
        have := hsib b1 hb1 hb1t hne
        rw [hb1acc] at this
        exact absurd this (by simp)
      have e2 : b2.id = b.id := by
        by_contra hne
        have := hsib b2 hb2 hb2t hne
        rw [hb2acc] at this
        exact absurd this (by simp)
      have hb1b : b1 = b := nodup_map_inj h2 hb1 hb e1
      have hb2b : b2 = b := nodup_map_inj h2 hb2 hb e2
      rw [hb1b, hb2b]
  · intro t htmem hstat
    have hnop : t.status ≠ TaskStatus.open_ := by
      rcases hstat with h | h | h <;> rw [h] <;> simp
    obtain ⟨b, hb, hbt, hbacc, hsib⟩ := h8 t htmem hnop
    refine ⟨b, hb, hbt, hbacc, ?_⟩
    intro b' hb' hbt' hne
    have hidne : b'.id ≠ b.id := fun hid => hne (nodup_map_inj h2 hb' hb hid)
    have hrej := hsib b' hb' hbt' hidne
    refine ⟨Or.inl hrej, ?_⟩
    rw [hrej]
    simp
  · intro bidId b task fr caller notifyOk hfb hft hfu hcl hnop
    simp [acceptBid, hfb, hft, hfu, hcl, hnop]

theorem C2_single_accepted_bid_witness :
    (∀ t ∈ exStep6.tasks, ∀ b1 ∈ exStep6.bids, ∀ b2 ∈ exStep6.bids,
      b1.taskId = t.id → b2.taskId = t.id →
      b1.status = BidStatus.accepted → b2.status = BidStatus.accepted → b1 = b2) ∧
    (∀ t ∈ exStep6.tasks,
      (t.status = TaskStatus.assigned ∨ t.status = TaskStatus.in_progress ∨
        t.status = TaskStatus.completed) →
      ∃ b ∈ exStep6.bids, b.taskId = t.id ∧ b.status = BidStatus.accepted ∧
        ∀ b' ∈ exStep6.bids, b'.taskId = t.id → b' ≠ b →
          (b'.status = BidStatus.rejected ∨ b'.status = BidStatus.withdrawn) ∧
          b'.status ≠ BidStatus.pending) ∧
    (∀ bidId b task fr caller notifyOk, findBid exStep6 bidId = some b →
      findTask exStep6 b.taskId = some task → findUser exStep6 b.freelancerId = some fr →
      task.clientId = caller → task.status ≠ TaskStatus.open_ →
      acceptBid exStep6 (some caller) bidId notifyOk =
        (exStep6, Resp.failure ErrKind.InvalidState "This task is not open for bidding.")) :=
  C2_single_accepted_bid (reachable_exStep6 false)

/-- C4 (amended): in the system restricted to never create a milestone on a
completed task, a task having at least one milestone is completed exactly
when every one of its milestones is paid, and a task with no milestones is
never completed. -/
theorem C4_completed_iff_all_paid {db : DB} {users : List User}
    (hreach : Reachable true users db) :
    ∀ t ∈ db.tasks,
      ((∃ m ∈ db.milestones, m.taskId = t.id) →
        (t.status = TaskStatus.completed ↔
          ∀ m ∈ db.milestones, m.taskId = t.id → m.status = MilestoneStatus.paid)) ∧
      ((∀ m ∈ db.milestones, m.taskId ≠ t.id) → t.status ≠ TaskStatus.completed) := by
  have hcp := completedPaid_reachable hreach
  obtain ⟨h1, h2, h3, h4, h5, h6, h7, h8, h9, h10⟩ := inv_reachable hreach
  intro t htmem
  constructor
  · rintro ⟨m0, hm0, hm0t⟩
    constructor
    · intro hcomp m hm hmt
      exact hcp t htmem hcomp m hm hmt
    · intro hallpaid
      by_contra hncomp
      obtain ⟨m2, hm2, hm2t, hm2p⟩ := h10 t htmem hncomp m0 hm0 hm0t
      exact hm2p (hallpaid m2 hm2 hm2t)
  · intro hnone hcomp
    obtain ⟨m, hm, hmt⟩ := h9 t htmem hcomp
    exact hnone m hm hmt

theorem C4_completed_iff_all_paid_witness :
    ((Task.mk "t1" "c" "Build a site" TaskStatus.completed).status = TaskStatus.completed ↔
      ∀ m ∈ exStep6.milestones,
        m.taskId = (Task.mk "t1" "c" "Build a site" TaskStatus.completed).id →
        m.status = MilestoneStatus.paid) ∧
    ((∀ m ∈ exStep6.milestones,
        m.taskId ≠ (Task.mk "t1" "c" "Build a site" TaskStatus.completed).id) →
      (Task.mk "t1" "c" "Build a site" TaskStatus.completed).status ≠ TaskStatus.completed) := by
  have h := C4_completed_iff_all_paid (reachable_exStep6 true)
    (Task.mk "t1" "c" "Build a site" TaskStatus.completed) (by decide)
  exact ⟨h.1 ⟨Milestone.mk "m1" "t1" "Design" "design the site" 50 0 MilestoneStatus.paid,
    by decide, by decide⟩, h.2⟩

/-- C4 fails in the unrestricted system: after the walkthrough pays the only
milestone (completing the task), creating one more milestone yields a
reachable state with a completed task owning an unpaid milestone. -/
theorem C4_counterexample :
    Reachable false exUsers exStep7 ∧
    ∃ t ∈ exStep7.tasks, t.status = TaskStatus.completed ∧
      (∃ m ∈ exStep7.milestones, m.taskId = t.id) ∧
      ∃ m ∈ exStep7.milestones, m.taskId = t.id ∧ m.status ≠ MilestoneStatus.paid :=
  ⟨reachable_exStep7, by decide⟩

theorem sortByCreated_of_sorted : ∀ {l : List Message},
    List.Chain' (fun a b => a.createdAt ≤ b.createdAt) l → sortByCreated l = l := by
  intro l
  induction l with
  | nil => intro _; rfl
  | cons x xs ih =>
    intro h
    rw [sortByCreated, ih h.tail]
    cases xs with
    | nil => rfl
    | cons y ys =>
      rw [insertByCreated, if_pos (List.chain'_cons.mp h).1]

/-- The Boolean authorization condition of the socket handlers agrees with
the spec's derivation: caller is the task's client or holds an accepted bid. -/
theorem auth_bool_iff (db : DB) (task : Task) (taskId uid : String) :
    ((task.clientId == uid) ||
      (acceptedBids db taskId).any (fun b => b.freelancerId == uid)) = true ↔
    (task.clientId = uid ∨
      ∃ b ∈ db.bids, b.taskId = taskId ∧ b.status = BidStatus.accepted ∧
        b.freelancerId = uid) := by
  simp only [Bool.or_eq_true, beq_iff_eq, List.any_eq_true, acceptedBids, List.mem_filter,
    Bool.and_eq_true]
  constructor
  · rintro (h | ⟨b, ⟨hb, hbt, hbs⟩, hbf⟩)
    · exact Or.inl h
    · exact Or.inr ⟨b, hb, hbt, hbs, hbf⟩
  · rintro (h | ⟨b, hb, hbt, hbs, hbf⟩)
    · exact Or.inl h
    · exact Or.inr ⟨b, ⟨hb, by simp [hbt, hbs]⟩, hbf⟩

/-- C7: send_message re-derives authorization from the current store; an
unauthorized caller gets an error emission and no Message row; an
authorized caller's message is persisted and then broadcast with the
sender's public identity via `io.to(room)`, whose recipients are exactly
the room's current members — the sender's own connection included whenever
it is in the room; a failed persist emits an error and persists nothing. -/
theorem C7_sendMessage (db : DB) (chat : ChatState) (conn : Conn) (taskId content : String)
    (newMsgId : String) (now : Nat) (task : Task)
    (hft : findTask db taskId = some task) :
    (¬(task.clientId = conn.userId ∨
        ∃ b ∈ db.bids, b.taskId = taskId ∧ b.status = BidStatus.accepted ∧
          b.freelancerId = conn.userId) →
      ∀ persistOk, sendMessage db conn taskId content newMsgId now persistOk =
        (db, [Emit.toConn conn.id (Event.error "Unauthorized to send messages to this task")])) ∧
    ((task.clientId = conn.userId ∨
        ∃ b ∈ db.bids, b.taskId = taskId ∧ b.status = BidStatus.accepted ∧
          b.freelancerId = conn.userId) →
      ∀ u, findUser db conn.userId = some u →
      sendMessage db conn taskId content newMsgId now true =
        ({ db with messages := db.messages ++ [⟨newMsgId, taskId, conn.userId, content, now⟩] },
         [Emit.toRoom ("task_" ++ taskId)
           (Event.newMessage ⟨⟨newMsgId, taskId, conn.userId, content, now⟩,
             some ⟨u.id, u.firstName, u.lastName⟩⟩)]) ∧
      (Emit.toRoom ("task_" ++ taskId)
          (Event.newMessage ⟨⟨newMsgId, taskId, conn.userId, content, now⟩,
            some ⟨u.id, u.firstName, u.lastName⟩⟩)).recipients chat =
        roomMembers chat ("task_" ++ taskId) ∧
      (conn.id ∈ roomMembers chat ("task_" ++ taskId) →
        conn.id ∈ (Emit.toRoom ("task_" ++ taskId)
          (Event.newMessage ⟨⟨newMsgId, taskId, conn.userId, content, now⟩,
            some ⟨u.id, u.firstName, u.lastName⟩⟩)).recipients chat) ∧
      sendMessage db conn taskId content newMsgId now false =
        (db, [Emit.toConn conn.id (Event.error "Failed to send message")])) := by
  constructor
  · intro hnauth persistOk
    have hfalse : ((task.clientId == conn.userId) ||
        (acceptedBids db taskId).any (fun b => b.freelancerId == conn.userId)) = false := by
      rw [Bool.eq_false_iff]
      intro h
      exact hnauth ((auth_bool_iff db task taskId conn.userId).mp h)
    simp [sendMessage, hft, hfalse]
  · intro hauth u hfu
    have htrue : ((task.clientId == conn.userId) ||
        (acceptedBids db taskId).any (fun b => b.freelancerId == conn.userId)) = true :=
      (auth_bool_iff db task taskId conn.userId).mpr hauth
    refine ⟨?_, rfl, ?_, ?_⟩
    · simp [sendMessage, hft, htrue, senderOf, hfu]
    · intro h
      exact h
    · simp [sendMessage, hft, htrue]

/-- A task with accepted freelancer `f`, plus stranger `s`. -/
def exDbC7 : DB :=
  { users := [⟨"c", "c@example.com", "Cleo", "Client", UserRole.client⟩,
              ⟨"f", "f@example.com", "Fred", "Lancer", UserRole.freelancer⟩,
              ⟨"s", "s@example.com", "Sly", "Stranger", UserRole.freelancer⟩],
    tasks := [⟨"t1", "c", "Build a site", TaskStatus.assigned⟩],
    bids := [⟨"b1", "t1", "f", 100, "first proposal", "2 weeks", BidStatus.accepted⟩],
    milestones := [], messages := [], notifications := [] }

theorem C7_sendMessage_witness :
    sendMessage exDbC7 ⟨"sock-s", "s"⟩ "t1" "let me in" "msg1" 7 true =
      (exDbC7, [Emit.toConn "sock-s" (Event.error "Unauthorized to send messages to this task")]) ∧
    sendMessage exDbC7 ⟨"sock-f", "f"⟩ "t1" "hello" "msg1" 7 true =
      ({ exDbC7 with messages := exDbC7.messages ++ [⟨"msg1", "t1", "f", "hello", 7⟩] },
       [Emit.toRoom "task_t1"
         (Event.newMessage ⟨⟨"msg1", "t1", "f", "hello", 7⟩, some ⟨"f", "Fred", "Lancer"⟩⟩)]) := by
  constructor
  · exact (C7_sendMessage exDbC7 [] ⟨"sock-s", "s"⟩ "t1" "let me in" "msg1" 7
      ⟨"t1", "c", "Build a site", TaskStatus.assigned⟩ (by decide)).1 (by decide) true
  · exact ((C7_sendMessage exDbC7 [] ⟨"sock-f", "f"⟩ "t1" "hello" "msg1" 7
      ⟨"t1", "c", "Build a site", TaskStatus.assigned⟩ (by decide)).2
      (Or.inr ⟨⟨"b1", "t1", "f", 100, "first proposal", "2 weeks", BidStatus.accepted⟩,
        by decide, by decide, by decide, by decide⟩)
      ⟨"f", "f@example.com", "Fred", "Lancer", UserRole.freelancer⟩ (by decide)).1

/-- C8 (amended): join_task by an authorized caller adds the connection to
the task room and pushes, to the caller only, the task's earliest 50
messages by ascending creation time (the query is `orderBy createdAt asc,
take 50`, so with more than 50 messages the oldest window is sent, in
newest-last order, with sender identities resolved); the take limit lies
in the 50–100 band; an unauthorized caller gets an error emission plus a
disconnect and no room membership. -/
theorem C8_joinTask (db : DB) (chat : ChatState) (conn : Conn) (taskId : String) (task : Task)
    (hft : findTask db taskId = some task)
    (hsorted : List.Chain' (fun a b => a.createdAt ≤ b.createdAt)
      (db.messages.filter (fun m => m.taskId == taskId))) :
    (50 ≤ joinTakeLimit ∧ joinTakeLimit ≤ 100) ∧
    ((task.clientId = conn.userId ∨
        ∃ b ∈ db.bids, b.taskId = taskId ∧ b.status = BidStatus.accepted ∧
          b.freelancerId = conn.userId) →
      joinTask db chat conn taskId =
        (chat ++ [("task_" ++ taskId, conn.id)],
         [Emit.toConn conn.id (Event.loadMessages
           (((db.messages.filter (fun m => m.taskId == taskId)).take joinTakeLimit).map
             (fun m => ⟨m, senderOf db m.senderId⟩)))])) ∧
    (¬(task.clientId = conn.userId ∨
        ∃ b ∈ db.bids, b.taskId = taskId ∧ b.status = BidStatus.accepted ∧
          b.freelancerId = conn.userId) →
      joinTask db chat conn taskId =
        (chat, [Emit.toConn conn.id (Event.error "Unauthorized to join this task chat"),
                Emit.disconnect conn.id])) := by
  refine ⟨⟨le_refl 50, by norm_num [joinTakeLimit]⟩, ?_, ?_⟩
  · intro hauth
    have htrue : ((task.clientId == conn.userId) ||
        (acceptedBids db taskId).any (fun b => b.freelancerId == conn.userId)) = true :=
      (auth_bool_iff db task taskId conn.userId).mpr hauth
    simp only [joinTask, hft, htrue, if_true, joinRoom, taskMessagesAsc,
      sortByCreated_of_sorted hsorted]
  · intro hnauth
    have hfalse : ((task.clientId == conn.userId) ||
        (acceptedBids db taskId).any (fun b => b.freelancerId == conn.userId)) = false := by
      rw [Bool.eq_false_iff]
      intro h
      exact hnauth ((auth_bool_iff db task taskId conn.userId).mp h)
    simp [joinTask, hft, hfalse]

theorem C8_joinTask_witness :
    joinTask exDbC7 [] ⟨"sock-f", "f"⟩ "t1" =
      ([("task_t1", "sock-f")],
       [Emit.toConn "sock-f" (Event.loadMessages [])]) ∧
    joinTask exDbC7 [] ⟨"sock-s", "s"⟩ "t1" =
      ([], [Emit.toConn "sock-s" (Event.error "Unauthorized to join this task chat"),
            Emit.disconnect "sock-s"]) := by
  constructor
  · exact (C8_joinTask exDbC7 [] ⟨"sock-f", "f"⟩ "t1"
      ⟨"t1", "c", "Build a site", TaskStatus.assigned⟩ (by decide) (by decide)).2.1
      (Or.inr ⟨⟨"b1", "t1", "f", 100, "first proposal", "2 weeks", BidStatus.accepted⟩,
        by decide, by decide, by decide, by decide⟩)
  · exact (C8_joinTask exDbC7 [] ⟨"sock-s", "s"⟩ "t1"
      ⟨"t1", "c", "Build a site", TaskStatus.assigned⟩ (by decide) (by decide)).2.2 (by decide)

/-- A task whose chat already holds 51 messages, created at times 0..50. -/
def exDbC8 : DB :=
  { users := [⟨"c", "c@example.com", "Cleo", "Client", UserRole.client⟩],
    tasks := [⟨"t1", "c", "Chatty task", TaskStatus.open_⟩],
    bids := [], milestones := [],
    messages := (List.range 51).map (fun i => ⟨"x", "t1", "c", "hi", i⟩),
    notifications := [] }

/-- C8 as stated is false: with 51 stored messages the handler pushes the 50
oldest ones (`orderBy createdAt asc, take 50`), so the most recent message
(createdAt 50) is not among the pushed messages. -/
theorem C8_counterexample :
    (joinTask exDbC8 [] ⟨"s1", "c"⟩ "t1").2 =
      [Emit.toConn "s1" (Event.loadMessages
        ((exDbC8.messages.take 50).map (fun m => ⟨m, senderOf exDbC8 m.senderId⟩)))] ∧
    ((exDbC8.messages.take 50).map
      (fun m => (⟨m, senderOf exDbC8 m.senderId⟩ : MessageWithSender))).length = 50 ∧
    (∃ mnew ∈ exDbC8.messages, mnew.createdAt = 50) ∧
    ∀ mw ∈ (exDbC8.messages.take 50).map
        (fun m => (⟨m, senderOf exDbC8 m.senderId⟩ : MessageWithSender)),
      mw.msg.createdAt ≠ 50 := by
  refine ⟨?_, ?_, ?_, ?_⟩ <;> decide

/-- C10: the typing handler reads no store at all — for every authenticated
connection and arbitrary taskId it emits exactly one `user_typing` event to
the task room excluding the sender, persists nothing, and every other
member of the room is a recipient. -/
theorem C10_typing (chat : ChatState) (conn : Conn) (taskId : String) (isTyping : Bool) :
    typingHandler conn taskId isTyping =
      [Emit.toRoomExcept ("task_" ++ taskId) conn.id (Event.userTyping conn.userId isTyping)] ∧
    conn.id ∉ (Emit.toRoomExcept ("task_" ++ taskId) conn.id
      (Event.userTyping conn.userId isTyping)).recipients chat ∧
    ∀ c ∈ roomMembers chat ("task_" ++ taskId), c ≠ conn.id →
      c ∈ (Emit.toRoomExcept ("task_" ++ taskId) conn.id
        (Event.userTyping conn.userId isTyping)).recipients chat := by
  refine ⟨rfl, ?_, ?_⟩
  · intro hmem
    have hpred := List.of_mem_filter hmem
    simp at hpred
  · intro c hc hne
    simp only [Emit.recipients, List.mem_filter, bne_iff_ne, ne_eq]
    exact ⟨hc, hne⟩

/-- C9 (amended): a failed post-transaction side effect does not unwind the
committed transaction — the store equals the transaction's output — but the
response does change: the route answers with the catch-block internal
error instead of success. -/
theorem C9_sideeffect_failure (db : DB) :
    (∀ clientId bidId b task fr, findBid db bidId = some b →
      findTask db b.taskId = some task → findUser db b.freelancerId = some fr →
      task.clientId = clientId → task.status = TaskStatus.open_ →
      acceptBid db (some clientId) bidId false =
        (acceptBidTx db bidId b.taskId,
         Resp.failure ErrKind.Internal "Failed to accept bid.")) ∧
    (∀ milestoneId m task, findMilestone db milestoneId = some m →
      findTask db m.taskId = some task → m.status = MilestoneStatus.completed →
      releasePayment db (some task.clientId) milestoneId false =
        (releasePaymentTx db m task.status,
         Resp.failure ErrKind.Internal "Failed to release payment.")) := by
  constructor
  · intro clientId bidId b task fr hfb hft hfu hcl hop
    simp [acceptBid, hfb, hft, hfu, hcl, hop]
  · intro milestoneId m task hfm hft hcomp
    rcases hab : acceptedBids db m.taskId with _ | ⟨ab, rest⟩ <;>
      simp [releasePayment, hfm, hft, hcomp, hab]

theorem C9_sideeffect_failure_witness :
    acceptBid exDbC1 (some "c") "b1" false =
      (acceptBidTx exDbC1 "b1" "t1",
       Resp.failure ErrKind.Internal "Failed to accept bid.") :=
  (C9_sideeffect_failure exDbC1).1 "c" "b1"
    ⟨"b1", "t1", "f", 100, "first proposal", "2 weeks", BidStatus.pending⟩
    ⟨"t1", "c", "Build a site", TaskStatus.open_⟩
    ⟨"f", "f@example.com", "Fred", "Lancer", UserRole.freelancer⟩
    (by decide) (by decide) (by decide) rfl rfl

/-- C9 as stated is false on the response half: when the post-transaction
notification insert throws, the transaction stays committed (the target bid
is accepted in the resulting store, which differs from the input store) yet
the caller receives a 500 internal error, not the success outcome. -/
theorem C9_counterexample :
    (acceptBid exDbC1 (some "c") "b1" false).2 =
      Resp.failure ErrKind.Internal "Failed to accept bid." ∧
    (acceptBid exDbC1 (some "c") "b1" false).2 ≠
      Resp.success "Bid accepted and freelancer hired successfully." ∧
    (acceptBid exDbC1 (some "c") "b1" false).1 ≠ exDbC1 ∧
    ∃ b ∈ (acceptBid exDbC1 (some "c") "b1" false).1.bids,
      b.id = "b1" ∧ b.status = BidStatus.accepted := by
  refine ⟨?_, ?_, ?_, ?_⟩ <;> decide

end Mk
